import Mathlib

/-!
Verification development for the `infinite-context` memory engine.

This file gives a shallow embedding, in Lean 4, of the parts of the source
that the checked properties speak about:

* `src/core/scorer.js`      — token estimation and score computation
* `src/core/transcript-parser.js` — incremental JSONL parsing and turn grouping
* `src/core/archiver.js`    — rule-based memory extraction
* `src/db/store.js`         — memory rows, dedup insert, sessions, FTS query sanitizing
* `src/core/restorer.js`    — token-budgeted context assembly
* `src/hooks/pre-compact.js` — the rollback-detection check

Modelling conventions (stated once here, referenced in doc comments):
* JavaScript numbers that carry scores and weights are modelled as `ℚ`;
  token counts and lengths as `ℕ`.
* JavaScript strings are modelled as Lean `String`; `s.length` models the
  JS `length` (they agree on the ASCII inputs used by every concrete
  witness in this file).
* JavaScript truthiness on optional strings (`x || y`) is modelled
  explicitly: `none` and `some ""` are falsy.
* A JSONL line is abstracted to whether it is blank, fails `JSON.parse`,
  or parses to an envelope object carrying exactly the fields the parser
  reads.  SHA-256 is kept abstract (claims never depend on hash values).
* The floating-point importance ranking (`computeImportance`, which uses
  `Math.exp`) is abstracted as an explicit ranking-function parameter of
  `restoreContext`; all properties proved are independent of the ranking.
-/

namespace InfSpec

/-- Apostrophe character, kept out of literals. -/
def apoc : Char := Char.ofNat 39

/-- Apostrophe as a one-character string. -/
def apos : String := String.singleton apoc

/-- Opening curly brace character. -/
def lbrace : Char := Char.ofNat 123

/-- JS truthiness of an optional string: `null`/`undefined` and `""` are falsy. -/
def jsTruthyStr : Option String → Bool
  | none => false
  | some s => !s.isEmpty

/-- JS `a || b` on optional strings. -/
def jsOrOpt (a b : Option String) : Option String :=
  if jsTruthyStr a then a else b

/-- JS `a || ''` on an optional string. -/
def jsStr (a : Option String) : String := a.getD ""

/-- JS `a || null` on an optional string: `some ""` collapses to `none`. -/
def jsOrNull (a : Option String) : Option String :=
  if jsTruthyStr a then a else none

/-- `String.prototype.toLowerCase` (character-wise; ASCII-exact). -/
def lowerStr (s : String) : String := ⟨s.data.map Char.toLower⟩

/-- `String.prototype.trim`: strip whitespace from both ends. -/
def trimStr (s : String) : String :=
  ⟨(((s.data.dropWhile Char.isWhitespace).reverse).dropWhile Char.isWhitespace).reverse⟩

/-- Helper for `split('\n')`. -/
def splitOnNLAux : List Char → List Char → List String
  | [], cur => [⟨cur.reverse⟩]
  | c :: rest, cur =>
      if c = '\n' then ⟨cur.reverse⟩ :: splitOnNLAux rest []
      else splitOnNLAux rest (c :: cur)

/-- JS `s.split('\n')` (keeps empty pieces). -/
def splitOnNL (s : String) : List String := splitOnNLAux s.data []

/-- Helper for whitespace tokenization. -/
def wsTokensAux : List Char → List Char → List String
  | [], cur => if cur.isEmpty then [] else [⟨cur.reverse⟩]
  | c :: rest, cur =>
      if c.isWhitespace then
        (if cur.isEmpty then wsTokensAux rest []
         else ⟨cur.reverse⟩ :: wsTokensAux rest [])
      else wsTokensAux rest (c :: cur)

/-- JS `s.split(/\s+/)` up to empty tokens: the maximal non-whitespace
runs.  (JS keeps a leading empty token when the string starts with
whitespace; every consumer filters tokens by a length bound > 0 first, so
dropping empties is observationally identical.) -/
def wsTokens (s : String) : List String := wsTokensAux s.data []

/-- JS `s.replace(/\n/g, ' ')`. -/
def replaceNLSpace (s : String) : String :=
  ⟨s.data.map (fun c => if c = '\n' then ' ' else c)⟩

/-- `estimateTokens` from `src/core/scorer.js`:
`if (!text) return 0; return Math.ceil(text.length / 3.5)`.
`⌈n / 3.5⌉ = ⌈2n / 7⌉ = (2n + 6) / 7` in natural-number division. -/
def estimateTokens (text : String) : Nat :=
  if text.isEmpty then 0 else (2 * text.length + 6) / 7

/-- The configuration fields the verified components read
(`src/core/config.js`).  `categoryWeights` is a total lookup returning
`none` for categories with no configured weight. -/
structure Config where
  maxRestoreTokens : Nat
  maxMemoriesPerRestore : Nat
  decayFactor : ℚ
  pruneThreshold : ℚ
  scoreFloor : ℚ
  maxMemoriesPerProject : Nat
  categoryWeights : String → Option ℚ
  stopwords : List String

/-- Default category weights from `src/core/config.js` (`DEFAULTS.categoryWeights`). -/
def defaultCategoryWeights (c : String) : Option ℚ :=
  if c = "architecture" then some 1
  else if c = "decision" then some (9/10)
  else if c = "error" then some (8/10)
  else if c = "finding" then some (7/10)
  else if c = "file_change" then some (1/2)
  else if c = "note" then some (2/5)
  else none

/-- Default stopword set from `src/core/config.js` (`DEFAULTS.stopwords`). -/
def defaultStopwords : List String :=
  ["the", "a", "an", "is", "are", "was", "were", "be", "been", "being",
   "have", "has", "had", "do", "does", "did", "will", "would", "could",
   "should", "may", "might", "can", "shall", "this", "that", "these",
   "those", "i", "you", "he", "she", "it", "we", "they", "me", "him",
   "her", "us", "them", "my", "your", "his", "its", "our", "their",
   "what", "which", "who", "whom", "how", "when", "where", "why",
   "not", "no", "nor", "and", "or", "but", "if", "then", "else",
   "for", "to", "from", "by", "on", "at", "in", "of", "with", "about",
   "into", "through", "during", "before", "after", "above", "below",
   "between", "out", "off", "over", "under", "again", "further",
   "just", "also", "very", "really", "quite", "so", "too", "only",
   "let", "use", "using", "used", "like", "need", "want", "get"]

/-- The defaults of `src/core/config.js` for the fields modelled here. -/
def defaultConfig : Config where
  maxRestoreTokens := 4000
  maxMemoriesPerRestore := 20
  decayFactor := 95/100
  pruneThreshold := 5/100
  scoreFloor := 1/100
  maxMemoriesPerProject := 5000
  categoryWeights := defaultCategoryWeights
  stopwords := defaultStopwords

/-- JS `cfg.categoryWeights[category] || 0.4` — the weight actually used by
`scoreMemory`; a missing weight or a weight of `0` (falsy) yields `0.4`. -/
def effectiveWeight (cfg : Config) (category : String) : ℚ :=
  match cfg.categoryWeights category with
  | some w => if w = 0 then 2/5 else w
  | none => 2/5

/-- `scoreMemory` from `src/core/scorer.js`:
`min(categoryWeight + min(content.length / 500, 0.1), 1.0)`.
The ambient `loadConfig()` is passed explicitly. -/
def scoreMemory (cfg : Config) (category content : String) : ℚ :=
  min (effectiveWeight cfg category + min ((content.length : ℚ) / 500) (1/10)) 1

/-- The score bump of the `touchMemory` statement in `src/db/store.js`:
`score = MIN(1.0, score + 0.02 * (1.0 - score))`. -/
def touchScore (s : ℚ) : ℚ :=
  min 1 (s + (2/100) * (1 - s))

/-- The score update of the `decayScores` statement in `src/db/store.js`:
`score = MAX(scoreFloor, score * decayFactor)`. -/
def decayScore (floor factor s : ℚ) : ℚ :=
  max floor (s * factor)

/-- Character class kept by `extractKeywords` (`src/core/scorer.js`):
the regex `[^a-z0-9а-яё\s_\-./]` with the `i` flag replaced by a space;
here the kept class, including the upper-case halves admitted by `/i`. -/
def keywordChar (c : Char) : Bool :=
  (c ≥ 'a' && c ≤ 'z') || (c ≥ 'A' && c ≤ 'Z') || c.isDigit ||
  (c.val ≥ 0x430 && c.val ≤ 0x44F) || c.val = 0x451 ||
  (c.val ≥ 0x410 && c.val ≤ 0x42F) || c.val = 0x401 ||
  c.isWhitespace || c = '_' || c = '-' || c = '.' || c = '/'

/-- Order-preserving de-duplication (JS `[...new Set(words)]`). -/
def dedupKeepOrder : List String → List String
  | [] => []
  | w :: ws => w :: (dedupKeepOrder (ws.filter (fun x => x ≠ w)))
termination_by l => l.length
decreasing_by
  exact Nat.lt_succ_of_le (List.length_filter_le _ _)

/-- `extractKeywords` from `src/core/scorer.js`: lowercase, keep the keyword
character class, split on whitespace, drop short and stop words, dedupe,
keep at most 30, join with spaces. -/
def extractKeywords (cfg : Config) (text : String) : String :=
  if text.isEmpty then "" else
  let cleaned : String := ⟨(lowerStr text).data.map (fun c => if keywordChar c then c else ' ')⟩
  let words := (wsTokens cleaned).filter
    (fun w => w.length > 2 && !(cfg.stopwords.contains w))
  String.intercalate (" ") ((dedupKeepOrder words).take 30)

/-! ## Store (`src/db/store.js`): memory rows and dedup insert -/

/-- Input record for `Store.insertMemory`.  `metadata` is kept abstract as an
optional already-structured value (its JSON serialization is out of scope). -/
structure MemoryInput where
  project : String
  sessionId : String
  category : String
  content : String
  keywords : String
  score : ℚ
  sourceHash : Option String
  metadata : Option String
deriving Repr, DecidableEq

/-- A stored `memories` row (the columns the claims touch). -/
structure Row where
  id : Nat
  project : String
  sessionId : String
  category : String
  content : String
  keywords : String
  score : ℚ
  createdAt : String
  lastAccessed : String
  accessCount : Nat
  sourceHash : Option String
  metadata : Option String
deriving Repr, DecidableEq

/-- The `memories` table plus the AUTOINCREMENT cursor (rowids start at 1). -/
structure StoreState where
  rows : List Row
  nextId : Nat
deriving Repr, DecidableEq

def emptyStore : StoreState := ⟨[], 1⟩

/-- The `hashExists` prepared statement:
`SELECT 1 FROM memories WHERE source_hash = ? LIMIT 1`. -/
def hashExists (st : StoreState) (h : String) : Bool :=
  st.rows.any (fun r => r.sourceHash = some h)

/-- Number of rows bearing a given `source_hash`. -/
def countHash (st : StoreState) (h : String) : Nat :=
  (st.rows.filter (fun r => r.sourceHash = some h)).length

/-- The row written by `Store.insertMemory`'s INSERT (with the column
defaults for timestamps and `access_count`, and `sourceHash || null`). -/
def insertedRow (now : String) (st : StoreState) (m : MemoryInput) : Row :=
  { id := st.nextId, project := m.project, sessionId := m.sessionId,
    category := m.category, content := m.content, keywords := m.keywords,
    score := m.score, createdAt := now, lastAccessed := now,
    accessCount := 0, sourceHash := jsOrNull m.sourceHash,
    metadata := m.metadata }

/-- `Store.insertMemory`:
`if (sourceHash && hashExists.get(sourceHash)) return null;` else insert
and return the new rowid.  `now` stands for the SQL `datetime('now')`
defaults of `created_at` / `last_accessed`. -/
def insertMemory (now : String) (st : StoreState) (m : MemoryInput) :
    Option Nat × StoreState :=
  if jsTruthyStr m.sourceHash && hashExists st (jsStr m.sourceHash) then
    (none, st)
  else
    (some st.nextId, ⟨st.rows ++ [insertedRow now st m], st.nextId + 1⟩)

/-- `Store.insertMany`: one transaction over the batch; counts the rows for
which `insertMemory` returned a (truthy) id.  Rowids are ≥ 1, so JS
truthiness of the returned id coincides with `Option.isSome`. -/
def insertMany (now : String) (st : StoreState) (ms : List MemoryInput) :
    Nat × StoreState :=
  ms.foldl
    (fun acc m =>
      let r := insertMemory now acc.2 m
      (acc.1 + (if r.1.isSome then 1 else 0), r.2))
    (0, st)

/-- One `touchMemory` statement run (`UPDATE ... WHERE id = ?`). -/
def touchRow (now : String) (r : Row) : Row :=
  { r with accessCount := r.accessCount + 1, lastAccessed := now,
           score := touchScore r.score }

/-- One iteration of the `touchMemories` transaction for a single id;
a missing id touches no row. -/
def touchOne (now : String) (st : StoreState) (id : Nat) : StoreState :=
  ⟨st.rows.map (fun r => if r.id = id then touchRow now r else r), st.nextId⟩

/-- `Store.touchMemories(ids)`: the per-id update statements in one
transaction, in order (a duplicated id touches its row twice). -/
def touchMemories (now : String) (st : StoreState) (ids : List Nat) : StoreState :=
  ids.foldl (touchOne now) st

/-- The `decayScores` statement:
`UPDATE memories SET score = MAX(?, score * ?) WHERE last_accessed < cutoff`.
The SQL datetime comparison is abstracted into the `stale` predicate. -/
def decayScores (stale : Row → Bool) (floor factor : ℚ) (st : StoreState) :
    StoreState :=
  ⟨st.rows.map (fun r =>
      if stale r then { r with score := decayScore floor factor r.score } else r),
   st.nextId⟩

/-! ## Store: FTS query sanitizing (`Store.search`) -/

/-- The FTS metacharacters stripped by `Store.search`: `* ^ { } [ ] ( ) : ~ !`. -/
def ftsMetaChars : List Char :=
  ['*', '^', Char.ofNat 123, Char.ofNat 125, '[', ']', '(', ')', ':', '~', '!']

/-- `w.replace(/[*^{}[\]():~!]/g, '')`. -/
def stripFtsMeta (w : String) : String :=
  ⟨w.data.filter (fun c => !(ftsMetaChars.contains c))⟩

/-- `w.replace(/"/g, '""')`. -/
def doubleQuotesStr (w : String) : String :=
  ⟨w.data.flatMap (fun c => if c = '"' then ['"', '"'] else [c])⟩

/-- The sanitizer of `Store.search` (`src/db/store.js` lines 232–237),
stage for stage: split on whitespace, drop tokens of length ≤ 1, strip the
metacharacters and double embedded quotes, drop tokens whose remaining
length is ≤ 1, wrap in quotes, join with `OR`. -/
def buildFtsQuery (query : String) : String :=
  let ws := (wsTokens query).filter (fun w => w.length > 1)
  let ws := ws.map (fun w => doubleQuotesStr (stripFtsMeta w))
  let ws := ws.filter (fun w => w.length > 1)
  let ws := ws.map (fun w => "\"" ++ w ++ "\"")
  String.intercalate (" OR ") ws

/-- The sanitizer exactly as the specification sentence describes it
(claim C3): split on whitespace; drop tokens of length ≤ 1; strip
metacharacters; double embedded quotes; wrap each surviving token in
quotes; join with OR — with no second length filter after stripping. -/
def buildFtsQuerySpec (query : String) : String :=
  let ws := (wsTokens query).filter (fun w => w.length > 1)
  let ws := ws.map (fun w => "\"" ++ doubleQuotesStr (stripFtsMeta w) ++ "\"")
  String.intercalate (" OR ") ws

/-- The sanitizer as the code has it, rephrased token-by-token (used to state
the amended C3): a token survives when its length is > 1 both before and
after stripping/doubling. -/
def sanitizeToken (w : String) : Option String :=
  if w.length > 1 then
    let w := doubleQuotesStr (stripFtsMeta w)
    if w.length > 1 then some ("\"" ++ w ++ "\"") else none
  else none

/-- Amended description of the sanitizer: the code pipeline written as a
single `filterMap` over whitespace tokens. -/
def buildFtsQueryAmended (query : String) : String :=
  String.intercalate (" OR ") ((wsTokens query).filterMap sanitizeToken)

/-- `Store.search`: sanitize, return `[]` on an empty expression, execute
under try/catch returning `[]` on an index error.  The prepared-statement
execution (including the project filter and limit) is the abstract
`ftsExec`; `Except.error` models a thrown FTS parse error. -/
def search (ftsExec : String → Option String → Nat → Except Unit (List Row))
    (query : String) (project : Option String) (limit : Nat) : List Row :=
  let ftsQuery := buildFtsQuery query
  if ftsQuery = "" then []
  else
    match ftsExec ftsQuery project limit with
    | Except.ok rs => rs
    | Except.error _ => []

/-! ## Store: sessions -/

/-- A `sessions` row.  `endedAt = none` models SQL NULL (`ended_at`). -/
structure SessionRow where
  sessionId : String
  project : String
  startedAt : String
  endedAt : Option String
  memoriesCreated : Nat
  compactions : Nat
deriving Repr, DecidableEq

/-- `Store.upsertSession`:
`INSERT INTO sessions (session_id, project) VALUES (?, ?)
 ON CONFLICT(session_id) DO UPDATE SET project = excluded.project`.
On conflict only `project` changes; a fresh row starts live (`ended_at` NULL). -/
def upsertSession (now : String) (rows : List SessionRow) (sid proj : String) :
    List SessionRow :=
  if rows.any (fun r => r.sessionId = sid) then
    rows.map (fun r => if r.sessionId = sid then { r with project := proj } else r)
  else
    rows ++ [⟨sid, proj, now, none, 0, 0⟩]

/-- `Store.endSession`: `UPDATE sessions SET ended_at = datetime('now')`. -/
def endSession (now : String) (rows : List SessionRow) (sid : String) :
    List SessionRow :=
  rows.map (fun r => if r.sessionId = sid then { r with endedAt := some now } else r)

/-! ## Transcript parser (`src/core/transcript-parser.js`) -/

/-- The fields of a `tool_use` / tool-call input object that the archiver
reads (`file_path`, `path`, `old_string`, `new_string`, `command`);
other keys of the JSON dictionary are never consulted. -/
structure ToolInput where
  file_path : Option String := none
  path : Option String := none
  old_string : Option String := none
  new_string : Option String := none
  command : Option String := none
deriving Repr, DecidableEq

/-- A collected tool call (`entry.toolCalls` element). -/
structure ToolCall where
  name : String
  id : Option String
  input : ToolInput
deriving Repr, DecidableEq

/-- A collected tool result (`entry.toolResults` element). -/
structure ToolResult where
  toolUseId : Option String
  content : String
  isError : Bool
deriving Repr, DecidableEq

/-- The `content` of a `tool_result` block: a string, an array of text
blocks (each contributing `b.text || ''`), or anything else. -/
inductive BlockContent where
  | str (s : String)
  | arr (texts : List (Option String))
  | other
deriving Repr, DecidableEq

/-- One element of an array-valued message `content`. -/
inductive Block where
  | text (t : Option String)
  | thinking (t : Option String)
  | toolUse (name : Option String) (id : Option String) (input : Option ToolInput)
  | toolResult (toolUseId : Option String) (content : BlockContent) (isError : Bool)
  | otherBlock
deriving Repr, DecidableEq

/-- A message `content` value: a plain string, an array of blocks, or
anything else (including absent). -/
inductive JsonContent where
  | str (s : String)
  | blocks (bs : List Block)
  | otherContent
deriving Repr, DecidableEq

/-- The `message` sub-object: `{role, content}`. -/
structure MsgObj where
  role : Option String
  content : JsonContent
deriving Repr, DecidableEq

/-- A parsed JSONL envelope, restricted to the fields
`transcript-parser.js` reads. -/
structure Entry where
  type : Option String := none
  role : Option String := none
  message : Option MsgObj := none
  content : JsonContent := JsonContent.otherContent
  uuid : Option String := none
  parentUuid : Option String := none
  sessionId : Option String := none
  timestamp : Option String := none
deriving Repr, DecidableEq

/-- A transcript line, abstracted to the three cases the parser
distinguishes: whitespace-only, failing `JSON.parse`, or parsing to an
envelope. -/
inductive RawLine where
  | blank
  | malformed
  | entry (e : Entry)
deriving Repr, DecidableEq

/-- A parsed message record. -/
structure Message where
  lineNum : Nat
  role : String
  uuid : Option String
  sessionId : Option String
  timestamp : Option String
  text : String
  thinking : String
  toolCalls : List ToolCall
  toolResults : List ToolResult
deriving Repr, DecidableEq

/-- The content-block walk of `parseTranscript` (lines 41–67): text and
thinking accumulate with newline separators, tool calls and results append. -/
def applyBlock (m : Message) (b : Block) : Message :=
  match b with
  | Block.text t =>
      { m with text := m.text ++ (if m.text.isEmpty then "" else "\n") ++ jsStr t }
  | Block.thinking t =>
      { m with thinking :=
          m.thinking ++ (if m.thinking.isEmpty then "" else "\n") ++ jsStr t }
  | Block.toolUse name id input =>
      { m with toolCalls :=
          m.toolCalls ++ [⟨(name.getD ("unknown")), jsOrNull id, input.getD {}⟩] }
  | Block.toolResult toolUseId content isError =>
      let c : String :=
        match content with
        | BlockContent.str s => s
        | BlockContent.arr texts => String.intercalate ("\n") (texts.map jsStr)
        | BlockContent.other => ""
      { m with toolResults := m.toolResults ++ [⟨jsOrNull toolUseId, c, isError⟩] }
  | Block.otherBlock => m

/-- Conversion of one parsed envelope into a message record, or `none` when
the envelope is discarded (`parseTranscript` lines 23–69).
`msg = parsed.message || parsed`; `role = msg.role || parsed.type`;
skip when the role is falsy or `system`, or when a truthy top-level `type`
outside {user, assistant, A} comes with a falsy `msg.role`. -/
def entryToMessage (lineNum : Nat) (e : Entry) : Option Message :=
  let msg : MsgObj := e.message.getD ⟨e.role, e.content⟩
  let role := jsOrOpt msg.role e.type
  if !jsTruthyStr role then none
  else if role = some ("system") then none
  else if jsTruthyStr e.type
          && !(["user", "assistant", "A"].contains (jsStr e.type))
          && !jsTruthyStr msg.role then none
  else
    let base : Message :=
      { lineNum := lineNum,
        role := if role = some ("A") then "assistant" else jsStr role,
        uuid := jsOrNull (jsOrOpt e.uuid e.parentUuid),
        sessionId := jsOrNull e.sessionId,
        timestamp := jsOrNull e.timestamp,
        text := "", thinking := "", toolCalls := [], toolResults := [] }
    some (match msg.content with
      | JsonContent.str s => { base with text := s }
      | JsonContent.blocks bs => bs.foldl applyBlock base
      | JsonContent.otherContent => base)

/-- Result of `parseTranscript`. -/
structure ParseResult where
  messages : List Message
  lastLine : Nat
deriving Repr, DecidableEq

/-- The line loop of `parseTranscript`: blank lines do not advance the
counter; non-blank lines advance it; lines numbered ≤ `startLine` and
malformed lines yield no message. -/
def parseLines (startLine : Nat) : List RawLine → Nat → ParseResult
  | [], lineNum => ⟨[], lineNum⟩
  | RawLine.blank :: rest, lineNum => parseLines startLine rest lineNum
  | RawLine.malformed :: rest, lineNum => parseLines startLine rest (lineNum + 1)
  | RawLine.entry e :: rest, lineNum =>
      let n := lineNum + 1
      if n ≤ startLine then parseLines startLine rest n
      else
        match entryToMessage n e with
        | none => parseLines startLine rest n
        | some m =>
            let r := parseLines startLine rest n
            ⟨m :: r.messages, r.lastLine⟩

/-- `parseTranscript(transcriptPath, startLine)`: a missing or null path
(`!transcriptPath || !existsSync(transcriptPath)`) yields no messages and
`lastLine = startLine`; otherwise the line loop runs from 0. -/
def parseTranscript (file : Option (List RawLine)) (startLine : Nat) : ParseResult :=
  match file with
  | none => ⟨[], startLine⟩
  | some lines => parseLines startLine lines 0

/-! ## Turn grouping (`groupIntoTurns`) -/

/-- A turn: user message, assistant replies, merged tool calls/results. -/
structure Turn where
  userMessage : Message
  assistantMessages : List Message
  allToolCalls : List ToolCall
  allToolResults : List ToolResult
  startLine : Nat
  endLine : Nat
deriving Repr, DecidableEq

/-- The fresh turn opened by a user message. -/
def newTurn (msg : Message) : Turn :=
  ⟨msg, [], [], [], msg.lineNum, msg.lineNum⟩

/-- Loop state of `groupIntoTurns`: closed turns plus the open one. -/
structure GroupState where
  turns : List Turn
  current : Option Turn
deriving Repr, DecidableEq

/-- One iteration of the `groupIntoTurns` loop (lines 79–102): a user
message with empty text and tool results folds into an open turn; any other
user message closes the open turn and opens a new one; an assistant message
appends to the open turn and is discarded when no turn is open. -/
def groupStep (st : GroupState) (msg : Message) : GroupState :=
  if msg.role = "user" then
    match st.current with
    | some t =>
        if msg.text.isEmpty && !msg.toolResults.isEmpty then
          { st with current := some { t with
              allToolResults := t.allToolResults ++ msg.toolResults,
              endLine := msg.lineNum } }
        else
          ⟨st.turns ++ [t], some (newTurn msg)⟩
    | none => ⟨st.turns, some (newTurn msg)⟩
  else if msg.role = "assistant" then
    match st.current with
    | some t =>
        { st with current := some { t with
            assistantMessages := t.assistantMessages ++ [msg],
            allToolCalls := t.allToolCalls ++ msg.toolCalls,
            allToolResults := t.allToolResults ++ msg.toolResults,
            endLine := msg.lineNum } }
    | none => st
  else st

/-- `groupIntoTurns(messages)`: fold the step over the messages, then close
the final open turn. -/
def groupIntoTurns (messages : List Message) : List Turn :=
  let st := messages.foldl groupStep ⟨[], none⟩
  st.turns ++ (match st.current with | some t => [t] | none => [])

/-- The rollback test of `src/hooks/pre-compact.js` line 25 (and the
equivalent check in the session-end hook):
`messages.length === 0 && lastLine < startLine`. -/
def rollbackDetected (r : ParseResult) (startLine : Nat) : Bool :=
  r.messages.isEmpty && decide (r.lastLine < startLine)

/-! ## A small matcher for the archiver's regular expressions

Each JS regex used by `src/core/archiver.js` is transcribed into a pattern
over `(previous character, remaining input)` states; a pattern returns every
state reachable after consuming a prefix of the input, which makes `.?`,
`( )?`, `+` and alternation exact (enumerating all backtracking choices).
`/i` regexes are tested against the lowercased input with lowercase
patterns; word boundaries `\b` use the JS `\w = [A-Za-z0-9_]` class. -/

/-- Matcher state: last consumed character (none at string start) and rest. -/
abbrev MState := Option Char × List Char

/-- A pattern: all states reachable by consuming some prefix. -/
abbrev Pat := MState → List MState

/-- JS `\w`. -/
def wordChar (c : Char) : Bool := c.isAlphanum || c = '_'

/-- Empty pattern (matches nothing, consumes nothing). -/
def pnil : Pat := fun st => [st]

/-- Sequencing. -/
def pseq (p q : Pat) : Pat := fun st => (p st).flatMap q

/-- Alternation `( | | )`. -/
def palt (ps : List Pat) : Pat := fun st => ps.flatMap (fun p => p st)

/-- `?` on a sub-pattern. -/
def popt (p : Pat) : Pat := fun st => st :: p st

/-- A single character of a class. -/
def pchar (cls : Char → Bool) : Pat := fun st =>
  match st.2 with
  | c :: r => if cls c then [(some c, r)] else []
  | [] => []

/-- A literal string. -/
def plit (w : String) : Pat :=
  w.data.foldr (fun c acc => pseq (pchar (fun x => x = c)) acc) pnil

/-- JS `.` (anything but a line terminator). -/
def pdot : Pat := pchar (fun c => c ≠ '\n' && c ≠ '\r')

/-- One-or-more characters of a class (JS `+` on a class). -/
def pplusCls (cls : Char → Bool) : List Char → List MState
  | [] => []
  | c :: r => if cls c then (some c, r) :: pplusCls cls r else []

/-- `+` as a pattern. -/
def pplus (cls : Char → Bool) : Pat := fun st => pplusCls cls st.2

/-- Zero-or-more characters of a class (JS `*` on a class). -/
def pstar (cls : Char → Bool) : Pat := fun st => st :: pplusCls cls st.2

/-- JS `\b`. -/
def pbound : Pat := fun st =>
  let pw := match st.1 with | some c => wordChar c | none => false
  let nw := match st.2 with | c :: _ => wordChar c | [] => false
  if pw ≠ nw then [st] else []

/-- JS `\s`. -/
def wsChar (c : Char) : Bool := c.isWhitespace

/-- JS `\d`. -/
def digitChar (c : Char) : Bool := c.isDigit

/-- Does the pattern match starting exactly at this state? -/
def matchesAt (p : Pat) (st : MState) : Bool := !(p st).isEmpty

/-- Unanchored search from a given state. -/
def psearch (p : Pat) : Option Char → List Char → Bool
  | pc, [] => matchesAt p (pc, [])
  | pc, c :: r => matchesAt p (pc, c :: r) || psearch p (some c) r

/-- `regex.test(s)` for an unanchored regex. -/
def testRegex (p : Pat) (s : String) : Bool := psearch p none s.data

/-- `regex.test(s)` for a `^`-anchored regex. -/
def testRegexStart (p : Pat) (s : String) : Bool := matchesAt p (none, s.data)

/-! ## Archiver (`src/core/archiver.js`) -/

/-- `truncate(s, max)`: newlines to spaces, trim, cut at `max` with an
ellipsis; falsy input gives the empty string. -/
def truncateJS (s : String) (max : Nat) : String :=
  if s.isEmpty then ""
  else
    let t := trimStr (replaceNLSpace s)
    if t.length > max then (t.take max) ++ "..." else t

/-- The alternatives of the architecture-vocabulary regex in
`extractArchitecture` (`src/core/archiver.js` line 190), in source order. -/
def archAlts : List Pat :=
  [plit ("architecture"), plit ("design pattern"), plit ("module structure"),
   plit ("interface design"), plit ("abstraction layer"),
   plit ("separation of concerns"), plit ("dependency injection"),
   plit ("coupling"), plit ("cohesion"),
   pseq (plit ("trade")) (pseq (popt pdot) (plit ("off"))),
   plit ("strategy pattern"),
   pseq (plit ("refactor")) (popt (plit ("ing"))),
   plit ("migration plan"), plit ("schema design"), plit ("database design"),
   plit ("api design"), plit ("data model"), plit ("state management"),
   plit ("caching strategy"), plit ("message queue"), plit ("middleware"),
   plit ("microservice"), plit ("monolith"),
   pseq (plit ("event")) (pseq (popt pdot) (plit ("driven"))),
   pseq (plit ("pub")) (pseq (popt pdot) (plit ("sub"))),
   plit ("clean architecture"),
   pseq (plit ("domain")) (pseq (popt pdot) (plit ("driven"))),
   plit ("bounded context"), plit ("service layer"), plit ("repository pattern")]

/-- The `isArch` test: `\b( …alternatives… )\b` with `/i`. -/
def testArchLine (line : String) : Bool :=
  testRegex (pseq pbound (pseq (palt archAlts) pbound)) (lowerStr line)

/-- A line kept by `extractArchitecture`: trimmed length in [30, 400] and
matching the architecture vocabulary. -/
def archKeep (t : String) : Bool :=
  !(t.length < 30 || t.length > 400) && testArchLine t

/-- `extractArchitecture(thinking)`: collect matching trimmed lines, then
`slice(0, 3)`. -/
def extractArchitecture (thinking : String) : List String :=
  (((splitOnNL thinking).map trimStr).filter archKeep).take 3

/-- The decision-phrasing regex of `extractDecisions` (line 160). -/
def decisionAlts : List Pat :=
  [plit ("i" ++ apos ++ "ll"), plit ("i will"), plit ("let" ++ apos ++ "s"),
   plit ("let me"), plit ("we should"), plit ("we" ++ apos ++ "ll"),
   plit ("the approach"), plit ("instead of"), plit ("rather than"),
   plit ("decided to"), plit ("choosing"), plit ("going with"),
   plit ("opted for")]

/-- The pure-intent suppression regex of `extractDecisions` (line 161). -/
def suppressAlts : List Pat :=
  [plit ("i" ++ apos ++ "ll read"), plit ("i" ++ apos ++ "ll check"),
   plit ("let me read"), plit ("let me look"), plit ("let me search"),
   plit ("let me check")]

/-- `DECISION_NOISE[0]`: `/^now\s+(let|i)/i`. -/
def noise0 : Pat :=
  pseq (plit ("now")) (pseq (pplus wsChar) (palt [plit ("let"), plit ("i")]))

/-- `DECISION_NOISE[1]`: `/^(good|great|perfect|alright|ok|excellent|nice|sure)\b/i`. -/
def noise1 : Pat :=
  pseq (palt [plit ("good"), plit ("great"), plit ("perfect"), plit ("alright"),
              plit ("ok"), plit ("excellent"), plit ("nice"), plit ("sure")])
       pbound

/-- `DECISION_NOISE[2]`: `/^(here|this|that|these|those)\s+(is|are|shows|looks|seems)/i`. -/
def noise2 : Pat :=
  pseq (palt [plit ("here"), plit ("this"), plit ("that"), plit ("these"),
              plit ("those")])
       (pseq (pplus wsChar)
             (palt [plit ("is"), plit ("are"), plit ("shows"), plit ("looks"),
                    plit ("seems")]))

/-- `DECISION_NOISE[3]`: `/^no\s+action\s+needed/i`. -/
def noise3 : Pat :=
  pseq (plit ("no")) (pseq (pplus wsChar)
    (pseq (plit ("action")) (pseq (pplus wsChar) (plit ("needed")))))

/-- `DECISION_NOISE[4]`: `/^all\s+\d+\s+tests?\s+pass/i`. -/
def noise4 : Pat :=
  pseq (plit ("all")) (pseq (pplus wsChar) (pseq (pplus digitChar)
    (pseq (pplus wsChar) (pseq (plit ("test")) (pseq (popt (plit ("s")))
      (pseq (pplus wsChar) (plit ("pass"))))))))

/-- `DECISION_NOISE[5]`: `/task\s+(as\s+)?(completed|done|finished)/i` (unanchored). -/
def noise5 : Pat :=
  pseq (plit ("task")) (pseq (pplus wsChar)
    (pseq (popt (pseq (plit ("as")) (pplus wsChar)))
          (palt [plit ("completed"), plit ("done"), plit ("finished")])))

/-- `DECISION_NOISE[6]`:
`/let\s+me\s+(mark|share|send|notify|report|acknowledge|respond|quick)/i`
(unanchored). -/
def noise6 : Pat :=
  pseq (plit ("let")) (pseq (pplus wsChar) (pseq (plit ("me"))
    (pseq (pplus wsChar)
      (palt [plit ("mark"), plit ("share"), plit ("send"), plit ("notify"),
             plit ("report"), plit ("acknowledge"), plit ("respond"),
             plit ("quick")]))))

/-- `DECISION_NOISE[7]`:
`/^i('ll|'m\s+going\s+to)\s+(start|begin|continue|proceed|move\s+on|now)\b/i`. -/
def noise7 : Pat :=
  pseq (plit ("i"))
    (pseq (palt [plit (apos ++ "ll"),
                 pseq (plit (apos ++ "m")) (pseq (pplus wsChar)
                   (pseq (plit ("going")) (pseq (pplus wsChar) (plit ("to")))))])
      (pseq (pplus wsChar)
        (pseq (palt [plit ("start"), plit ("begin"), plit ("continue"),
                     plit ("proceed"),
                     pseq (plit ("move")) (pseq (pplus wsChar) (plit ("on"))),
                     plit ("now")])
              pbound)))

/-- `DECISION_NOISE[8]`: `/^i\s+have\s+(a\s+thorough|all|now|the)\b/i`. -/
def noise8 : Pat :=
  pseq (plit ("i")) (pseq (pplus wsChar) (pseq (plit ("have"))
    (pseq (pplus wsChar)
      (pseq (palt [pseq (plit ("a")) (pseq (pplus wsChar) (plit ("thorough"))),
                   plit ("all"), plit ("now"), plit ("the")])
            pbound))))

/-- `DECISION_NOISE[9]`:
`/^(let me|i'll)\s+(create|write|build|implement|add|make|run|execute|generate)\s+(the|this|that|it)\b/i`. -/
def noise9 : Pat :=
  pseq (palt [plit ("let me"), plit ("i" ++ apos ++ "ll")])
    (pseq (pplus wsChar)
      (pseq (palt [plit ("create"), plit ("write"), plit ("build"),
                   plit ("implement"), plit ("add"), plit ("make"),
                   plit ("run"), plit ("execute"), plit ("generate")])
        (pseq (pplus wsChar)
          (pseq (palt [plit ("the"), plit ("this"), plit ("that"), plit ("it")])
                pbound))))

/-- `DECISION_NOISE.some(p => p.test(trimmed))`; the first five and the last
three are `^`-anchored, the `task…` and `let me…` ones are not. -/
def decisionNoise (t : String) : Bool :=
  let l := lowerStr t
  testRegexStart noise0 l || testRegexStart noise1 l || testRegexStart noise2 l ||
  testRegexStart noise3 l || testRegexStart noise4 l || testRegex noise5 l ||
  testRegex noise6 l || testRegexStart noise7 l || testRegexStart noise8 l ||
  testRegexStart noise9 l

/-- The `isDecision` conjunction of `extractDecisions` (lines 159–162). -/
def isDecisionLine (t : String) : Bool :=
  testRegex (pseq pbound (pseq (palt decisionAlts) pbound)) (lowerStr t) &&
  !(testRegex (pseq pbound (pseq (palt suppressAlts) pbound)) (lowerStr t)) &&
  !(decisionNoise t)

/-- A line kept by `extractDecisions`: trimmed length in [20, 300] and
passing `isDecision`. -/
def decisionKeep (t : String) : Bool :=
  !(t.length < 20 || t.length > 300) && isDecisionLine t

/-- `extractDecisions(text)`: collect matching trimmed lines, `slice(0, 3)`. -/
def extractDecisions (text : String) : List String :=
  (((splitOnNL text).map trimStr).filter decisionKeep).take 3

/-- The command patterns of `isNotableCommand` (lines 121–134); all are
case-sensitive and unanchored. -/
def notablePats : List Pat :=
  [pseq (plit ("npm")) (pseq (pplus wsChar)
     (palt [plit ("install"), plit ("uninstall"), plit ("init"), plit ("run"),
            plit ("test")])),
   pseq (plit ("pip")) (pseq (pplus wsChar)
     (palt [plit ("install"), plit ("uninstall")])),
   pseq (plit ("git")) (pseq (pplus wsChar)
     (palt [plit ("init"), plit ("clone"), plit ("checkout"), plit ("merge"),
            plit ("rebase"), plit ("tag")])),
   pseq (plit ("docker")) (pseq (pplus wsChar)
     (palt [plit ("build"), plit ("run"), plit ("compose"), plit ("push"),
            plit ("pull")])),
   pseq (plit ("cargo")) (pseq (pplus wsChar)
     (palt [plit ("build"), plit ("run"), plit ("test"), plit ("add")])),
   pseq (plit ("make")) pbound,
   palt [plit ("createdb"), plit ("dropdb"), plit ("psql"), plit ("mysql"),
         plit ("mongo")],
   pseq (plit ("curl")) (pseq (pplus wsChar) (pseq (pstar (fun c => c ≠ '\n' && c ≠ '\r'))
     (pseq (palt [plit ("-X"), plit ("--request")]) (pseq (pplus wsChar)
       (palt [plit ("POST"), plit ("PUT"), plit ("DELETE"), plit ("PATCH")]))))),
   pseq (plit ("mkdir")) (pseq (pplus wsChar) (plit ("-p"))),
   palt [plit ("chmod"), plit ("chown")],
   palt [plit ("systemctl"), plit ("service")],
   pseq (plit ("ssh")) (pplus wsChar)]

/-- `isNotableCommand(cmd)`. -/
def isNotableCommand (cmd : String) : Bool :=
  if cmd.isEmpty || cmd.length < 5 then false
  else notablePats.any (fun p => testRegex p cmd)

/-- Consume up to and including the next `>` (the tail of `<[^>]+>`). -/
def goTag : List Char → Option (List Char)
  | [] => none
  | c :: rest => if c = '>' then some rest else goTag rest

/-- After a `<`, match `[^>]+>`: at least one non-`>`, then `>`. -/
def takeTag : List Char → Option (List Char)
  | [] => none
  | c :: rest => if c = '>' then none else goTag rest

/-- The tag-counting scan, with explicit fuel to keep the recursion
structural (every step consumes at least one character, so `l.length` fuel
is always enough). -/
def countTagsFuel : Nat → List Char → Nat
  | 0, _ => 0
  | _, [] => 0
  | fuel + 1, c :: rest =>
      if c = '<' then
        match takeTag rest with
        | some r => 1 + countTagsFuel fuel r
        | none => countTagsFuel fuel rest
      else countTagsFuel fuel rest

/-- The number of (non-overlapping, leftmost) matches of `/<[^>]+>/g`,
as counted by `trimmed.match(/<[^>]+>/g)`. -/
def countTags (l : List Char) : Nat := countTagsFuel l.length l

/-- `isUserMessageWorthSaving(text)` (lines 172–179): rejects
task-notification markers, tag-led text, text with more than three
`<…>` tags, and long JSON-looking text. -/
def isUserMessageWorthSaving (text : String) : Bool :=
  let trimmed := trimStr text
  if testRegex (plit ("<task-notification>")) (lowerStr trimmed) then false
  else if testRegexStart (pseq (plit ("<")) (pchar (fun c => c ≥ 'a' && c ≤ 'z')))
            (lowerStr trimmed) then false
  else if countTags trimmed.data > 3 then false
  else if testRegexStart (pseq (pstar wsChar) (plit (String.singleton lbrace))) trimmed
          && trimmed.length > 200 then false
  else true

/-- An extracted memory record (the shape `buildMemory` returns). -/
structure MemRecord where
  project : String
  sessionId : String
  category : String
  content : String
  keywords : String
  score : ℚ
  sourceHash : String
  metadata : Option String
deriving Repr, DecidableEq

/-- Stand-in for `hashText` (the first 16 hex characters of SHA-256): the
hash function itself is not modellable and no claim depends on its values,
so the fingerprint is kept as the source text itself. -/
def hashText (text : String) : String := text

/-- `buildMemory`: score is the override if given else `scoreMemory`;
the hash covers `sourceText || content`; metadata is null. -/
def buildMemory (cfg : Config) (project sessionId category content keywords
    sourceText : String) (scoreOverride : Option ℚ) : MemRecord :=
  { project := project, sessionId := sessionId, category := category,
    content := content, keywords := keywords,
    score := scoreOverride.getD (scoreMemory cfg category content),
    sourceHash := hashText (if sourceText.isEmpty then content else sourceText),
    metadata := none }

/-- The Write/Edit/MultiEdit branch of `extractMemories` (lines 9–27). -/
def fileChangeMemories (cfg : Config) (project sessionId : String)
    (tc : ToolCall) : List MemRecord :=
  if tc.name = "Write" || tc.name = "Edit" || tc.name = "MultiEdit" then
    let filePath := jsStr (jsOrOpt tc.input.file_path tc.input.path)
    if filePath.isEmpty then []
    else
      let desc := if tc.name = "Write" then "Created/wrote file: " ++ filePath
                  else "Edited file: " ++ filePath
      let detail :=
        if tc.name = "Edit" && jsTruthyStr tc.input.old_string then
          "\n  Changed: \"" ++ truncateJS (jsStr tc.input.old_string) 80 ++
          "\" → \"" ++ truncateJS (jsStr tc.input.new_string) 80 ++ "\""
        else ""
      [buildMemory cfg project sessionId ("file_change") (desc ++ detail)
        (extractKeywords cfg (filePath ++ " " ++ desc)) (desc ++ filePath) none]
  else []

/-- The Bash branch of `extractMemories` (lines 29–39). -/
def bashMemories (cfg : Config) (project sessionId : String)
    (tc : ToolCall) : List MemRecord :=
  if tc.name = "Bash" then
    let cmd := jsStr tc.input.command
    if isNotableCommand cmd then
      [buildMemory cfg project sessionId ("note")
        ("Ran command: " ++ truncateJS cmd 200) (extractKeywords cfg cmd) cmd none]
    else []
  else []

/-- The error branch of `extractMemories` (lines 42–51). -/
def errorMemories (cfg : Config) (project sessionId : String)
    (tr : ToolResult) : List MemRecord :=
  if tr.isError && !tr.content.isEmpty then
    [buildMemory cfg project sessionId ("error")
      ("Error encountered: " ++ truncateJS tr.content 300)
      (extractKeywords cfg tr.content) tr.content none]
  else []

/-- The assistant-message branch of `extractMemories` (lines 53–77):
decisions from `text`, architecture items from `thinking`. -/
def assistantMemories (cfg : Config) (project sessionId : String)
    (msg : Message) : List MemRecord :=
  (if !msg.text.isEmpty then
     (extractDecisions msg.text).map (fun d =>
       buildMemory cfg project sessionId ("decision") d (extractKeywords cfg d) d none)
   else []) ++
  (if !msg.thinking.isEmpty then
     (extractArchitecture msg.thinking).map (fun a =>
       buildMemory cfg project sessionId ("architecture") a
         (extractKeywords cfg a) a none)
   else [])

/-- The user-request branch of `extractMemories` (lines 79–90): a note with
an override score of 0.35 for a worth-saving user text of length in
(20, 500]. -/
def userNoteMemories (cfg : Config) (project sessionId : String)
    (t : Turn) : List MemRecord :=
  let userText := t.userMessage.text
  if !userText.isEmpty && userText.length > 20 && userText.length ≤ 500 &&
     isUserMessageWorthSaving userText then
    [buildMemory cfg project sessionId ("note")
      ("User request: " ++ truncateJS userText 200)
      (extractKeywords cfg userText) userText (some (35/100))]
  else []

/-- All memories from one turn, in the source's emission order. -/
def turnMemories (cfg : Config) (project sessionId : String)
    (t : Turn) : List MemRecord :=
  (t.allToolCalls.flatMap (fun tc =>
     fileChangeMemories cfg project sessionId tc ++
     bashMemories cfg project sessionId tc)) ++
  (t.allToolResults.flatMap (errorMemories cfg project sessionId)) ++
  (t.assistantMessages.flatMap (assistantMemories cfg project sessionId)) ++
  userNoteMemories cfg project sessionId t

/-- `extractMemories(turns, project, sessionId)` with the ambient config
passed explicitly. -/
def extractMemories (cfg : Config) (turns : List Turn)
    (project sessionId : String) : List MemRecord :=
  turns.flatMap (turnMemories cfg project sessionId)

/-! ## Restorer (`src/core/restorer.js`) -/

/-- Stable insertion (descending by key) standing in for the stable
`Array.prototype.sort` with comparator `(a, b) => b.importance - a.importance`. -/
def insertByDesc (key : Row → ℚ) (m : Row) : List Row → List Row
  | [] => [m]
  | x :: xs => if key x < key m then m :: x :: xs else x :: insertByDesc key m xs

/-- Sort descending by key, stably. -/
def sortByDesc (key : Row → ℚ) (l : List Row) : List Row :=
  l.foldl (fun acc m => insertByDesc key m acc) []

/-- The fixed `groups` record of `restoreContext` (lines 15–22). -/
structure Groups where
  architecture : List Row := []
  decision : List Row := []
  error : List Row := []
  finding : List Row := []
  file_change : List Row := []
  note : List Row := []
deriving Repr, DecidableEq

/-- The six category values of the schema. -/
def sixCategories : List String :=
  ["architecture", "decision", "error", "finding", "file_change", "note"]

/-- The six known categories (the keys of `groups`). -/
def knownCategory (c : String) : Bool := sixCategories.contains c

/-- `groups[m.category] ? m.category : 'note'`. -/
def catOf (m : Row) : String :=
  if knownCategory m.category then m.category else "note"

/-- Read one bucket of the groups record. -/
def groupGet (g : Groups) (c : String) : List Row :=
  if c = "architecture" then g.architecture
  else if c = "decision" then g.decision
  else if c = "error" then g.error
  else if c = "finding" then g.finding
  else if c = "file_change" then g.file_change
  else g.note

/-- `groups[cat].push(m)` (for `cat` one of the six keys). -/
def groupPush (g : Groups) (c : String) (m : Row) : Groups :=
  if c = "architecture" then { g with architecture := g.architecture ++ [m] }
  else if c = "decision" then { g with decision := g.decision ++ [m] }
  else if c = "error" then { g with error := g.error ++ [m] }
  else if c = "finding" then { g with finding := g.finding ++ [m] }
  else if c = "file_change" then { g with file_change := g.file_change ++ [m] }
  else { g with note := g.note ++ [m] }

/-- The top header string of the restored block. -/
def restoreHeader : String := "## Prior Context (restored from archive)\n\n"

/-- `headerTokens` (line 26). -/
def headerTokens : Nat := estimateTokens restoreHeader

/-- `sectionHeaderTokens` (line 29): the cost placeholder for any section
header. -/
def sectionHeaderTokens : Nat := estimateTokens ("### Category Label\n")

/-- The loop state of `restoreContext` (lines 24–47). -/
structure RestoreState where
  totalTokens : Nat
  seen : List String
  groups : Groups
  restoredIds : List Nat
deriving Repr, DecidableEq

/-- Initial loop state: the running count already includes the top header. -/
def restoreInit : RestoreState := ⟨headerTokens, [], {}, []⟩

/-- The admission loop (lines 31–47): admit a memory only when the running
count plus its line cost plus a section-header cost (for an unseen category)
stays within the budget; stop at the first rejection. -/
def restoreLoop (maxTokens : Nat) : RestoreState → List Row → RestoreState
  | st, [] => st
  | st, m :: rest =>
      if st.totalTokens + estimateTokens ("- " ++ m.content ++ "\n") +
          (if st.seen.contains (catOf m) then 0 else sectionHeaderTokens) >
          maxTokens then st
      else
        restoreLoop maxTokens
          ⟨st.totalTokens +
             (if st.seen.contains (catOf m) then 0 else sectionHeaderTokens) +
             estimateTokens ("- " ++ m.content ++ "\n"),
           if st.seen.contains (catOf m) then st.seen else catOf m :: st.seen,
           groupPush st.groups (catOf m) m,
           st.restoredIds ++ [m.id]⟩ rest

/-- The parts a section contributes to `sections` (lines 60–68): header,
item lines, and a trailing blank entry — nothing when the bucket is empty. -/
def sectionParts (label : String) (items : List Row) : List String :=
  if items.isEmpty then []
  else ("### " ++ label) :: (items.map (fun m => "- " ++ m.content) ++ [""])

/-- `categoryLabels` in iteration order (lines 51–58). -/
def categoryPairs (g : Groups) : List (String × List Row) :=
  [("Architecture & Design", g.architecture), ("Key Decisions", g.decision),
   ("Known Issues", g.error), ("Findings", g.finding),
   ("Files Modified", g.file_change), ("Notes", g.note)]

/-- The `sections` array. -/
def sectionsOf (g : Groups) : List String :=
  (categoryPairs g).flatMap (fun p => sectionParts p.1 p.2)

/-- `Array.prototype.join('\n')`. -/
def joinNL : List String → String
  | [] => ""
  | [s] => s
  | s :: rest => s ++ "\n" ++ joinNL rest

/-- Result record of `restoreContext`. -/
structure RestoreResult where
  text : String
  ids : List Nat
deriving Repr, DecidableEq

/-- Rank and run the admission loop (`ranked` then lines 31–47).  The
floating-point `computeImportance` is the abstract ranking `imp`. -/
def restoreFinal (imp : Row → ℚ) (ms : List Row) (maxTokens : Nat) : RestoreState :=
  restoreLoop maxTokens restoreInit (sortByDesc imp ms)

/-- `restoreContext(memories, budget)`: `budget ?? cfg.maxRestoreTokens`
(so an explicit 0 stays 0), empty output for null/empty input or when no
section has items, otherwise the header plus the joined sections. -/
def restoreContext (imp : Row → ℚ) (memories : Option (List Row))
    (budget : Option Nat) : RestoreResult :=
  let maxTokens := budget.getD defaultConfig.maxRestoreTokens
  match memories with
  | none => ⟨"", []⟩
  | some ms =>
      if ms.isEmpty then ⟨"", []⟩
      else
        let st := restoreFinal imp ms maxTokens
        let sections := sectionsOf st.groups
        if sections.isEmpty then ⟨"", []⟩
        else ⟨restoreHeader ++ joinNL sections, st.restoredIds⟩

/-! ### Bookkeeping for the restore-budget bound -/

/-- Character count a section contributes to the joined output
(header, item lines, separators and the blank line), zero when empty. -/
def secLen (label : String) (items : List Row) : Nat :=
  if items.isEmpty then 0
  else (label.length + 6) + (items.map (fun m => m.content.length + 3)).sum

/-- Total section character count of a groups record. -/
def groupsLen (g : Groups) : Nat :=
  ((categoryPairs g).map (fun p => secLen p.1 p.2)).sum

/-- `(joinNL parts).length + 1` for nonempty `parts`: each part plus one
separator. -/
def joinLen (parts : List String) : Nat :=
  (parts.map String.length).sum + parts.length

/-- The one-time slack available while the Architecture section is still
empty: its real header is 12 half-characters longer than the placeholder
`### Category Label` the running count charges. -/
def archSlack (g : Groups) : Nat :=
  if g.architecture.isEmpty then 12 else 0

/-- The invariant of the admission loop: the would-be output length is
covered by the running token count (with the architecture slack), the
running count stays within budget once anything was admitted, and a seen
category always has a nonempty bucket. -/
def RInv (maxTokens : Nat) (st : RestoreState) : Prop :=
  (2 * groupsLen st.groups + archSlack st.groups + 82 ≤ 7 * st.totalTokens + 14) ∧
  (st.groups = {} ∨ st.totalTokens ≤ maxTokens) ∧
  (∀ c, st.seen.contains c = true → groupGet st.groups c ≠ [])

/-- The number of non-blank lines — exactly what the parser's line counter
advances on. -/
def countNonBlank : List RawLine → Nat
  | [] => 0
  | RawLine.blank :: rest => countNonBlank rest
  | _ :: rest => countNonBlank rest + 1

/-! ## Theorems -/

theorem isEmpty_false_of_ne (s : String) (h : s ≠ "") : s.isEmpty = false := by
  cases he : s.isEmpty
  · rfl
  · exact absurd ((String.isEmpty_iff s).mp he) h

theorem parseLines_lastLine (lines : List RawLine) (s n : Nat) :
    (parseLines s lines n).lastLine = n + countNonBlank lines := by
  induction lines generalizing n with
  | nil => simp [parseLines, countNonBlank]
  | cons l rest ih =>
      cases l with
      | blank => simpa [parseLines, countNonBlank] using ih n
      | malformed =>
          simp only [parseLines, countNonBlank]
          rw [ih (n + 1)]
          omega
      | entry e =>
          simp only [parseLines, countNonBlank]
          by_cases hle : n + 1 ≤ s
          · rw [if_pos hle, ih (n + 1)]
            omega
          · rw [if_neg hle]
            cases hm : entryToMessage (n + 1) e with
            | none =>
                show (parseLines s rest (n + 1)).lastLine = n + (countNonBlank rest + 1)
                rw [ih (n + 1)]
                omega
            | some m =>
                show (parseLines s rest (n + 1)).lastLine = n + (countNonBlank rest + 1)
                rw [ih (n + 1)]
                omega

theorem parseLines_skip (lines : List RawLine) (s n : Nat)
    (h : n + countNonBlank lines ≤ s) :
    (parseLines s lines n).messages = [] := by
  induction lines generalizing n with
  | nil => simp [parseLines]
  | cons l rest ih =>
      cases l with
      | blank =>
          simp only [countNonBlank] at h
          simpa [parseLines] using ih n h
      | malformed =>
          simp only [countNonBlank] at h
          exact ih (n + 1) (by omega)
      | entry e =>
          simp only [countNonBlank] at h
          have hle : n + 1 ≤ s := by omega
          simp only [parseLines, if_pos hle]
          exact ih (n + 1) (by omega)

theorem parseLines_insert_blank (pre post : List RawLine) (s n : Nat) :
    parseLines s (pre ++ RawLine.blank :: post) n = parseLines s (pre ++ post) n := by
  induction pre generalizing n with
  | nil => simp [parseLines]
  | cons l rest ih =>
      cases l with
      | blank => simpa [parseLines] using ih n
      | malformed => simpa [parseLines] using ih (n + 1)
      | entry e =>
          simp only [List.cons_append, parseLines, List.append_eq]
          by_cases hle : n + 1 ≤ s
          · rw [if_pos hle, if_pos hle]
            exact ih (n + 1)
          · rw [if_neg hle, if_neg hle]
            cases hm : entryToMessage (n + 1) e with
            | none => exact ih (n + 1)
            | some m => simp only [ih (n + 1)]

theorem parseLines_append_malformed (pre : List RawLine) (s n : Nat) :
    parseLines s (pre ++ [RawLine.malformed]) n =
      ⟨(parseLines s pre n).messages, (parseLines s pre n).lastLine + 1⟩ := by
  induction pre generalizing n with
  | nil => simp [parseLines]
  | cons l rest ih =>
      cases l with
      | blank => simpa [parseLines] using ih n
      | malformed => simpa [parseLines] using ih (n + 1)
      | entry e =>
          simp only [List.cons_append, parseLines, List.append_eq]
          by_cases hle : n + 1 ≤ s
          · rw [if_pos hle, if_pos hle]
            exact ih (n + 1)
          · rw [if_neg hle, if_neg hle]
            cases hm : entryToMessage (n + 1) e with
            | none => exact ih (n + 1)
            | some m => simp only [ih (n + 1)]

/-- C6: incremental parsing round-trip — re-parsing any transcript from the
`lastLine` of a full parse yields zero messages and the same `lastLine`;
inserting a blank (whitespace-only) line anywhere changes nothing at all
(blank lines never advance `lastLine`); appending a malformed JSON line
leaves the message list untouched while advancing `lastLine` by one. -/
theorem C6_incremental_parse_roundtrip (file : Option (List RawLine))
    (pre post : List RawLine) (s : Nat) :
    parseTranscript file ((parseTranscript file 0).lastLine) =
      ⟨[], (parseTranscript file 0).lastLine⟩ ∧
    parseTranscript (some (pre ++ RawLine.blank :: post)) s =
      parseTranscript (some (pre ++ post)) s ∧
    (parseTranscript (some (pre ++ [RawLine.malformed])) s).messages =
      (parseTranscript (some pre) s).messages ∧
    (parseTranscript (some (pre ++ [RawLine.malformed])) s).lastLine =
      (parseTranscript (some pre) s).lastLine + 1 := by
  refine ⟨?_, ?_, ?_, ?_⟩
  · cases file with
    | none => rfl
    | some lines =>
        simp only [parseTranscript]
        have hL : (parseLines 0 lines 0).lastLine = countNonBlank lines := by
          simpa using parseLines_lastLine lines 0 0
        rw [hL]
        have h1 : (parseLines (countNonBlank lines) lines 0).messages = [] :=
          parseLines_skip lines (countNonBlank lines) 0 (by omega)
        have h2 : (parseLines (countNonBlank lines) lines 0).lastLine =
            countNonBlank lines := by
          simpa using parseLines_lastLine lines (countNonBlank lines) 0
        rcases hq : parseLines (countNonBlank lines) lines 0 with ⟨ms, ll⟩
        rw [hq] at h1 h2
        simp at h1 h2
        simp [h1, h2]
  · simp only [parseTranscript]
    exact parseLines_insert_blank pre post s 0
  · simp only [parseTranscript]
    rw [parseLines_append_malformed pre s 0]
  · simp only [parseTranscript]
    rw [parseLines_append_malformed pre s 0]

theorem foldl_groupStep_assistant (pre : List Message) (turns : List Turn)
    (h : ∀ m ∈ pre, m.role = "assistant") :
    pre.foldl groupStep ⟨turns, none⟩ = ⟨turns, none⟩ := by
  induction pre with
  | nil => rfl
  | cons m rest ih =>
      have hm : m.role = "assistant" := h m (by simp)
      have hstep : groupStep ⟨turns, none⟩ m = ⟨turns, none⟩ := by
        simp [groupStep, hm]
      rw [List.foldl_cons, hstep]
      exact ih (fun x hx => h x (by simp [hx]))

/-- C5: turn grouping — a user message with empty text and at least one
tool result, arriving while a turn is open, folds into the current turn's
`allToolResults` without opening a new turn; any other user message closes
the current turn (if any) and opens a new one; and assistant messages
appearing before any user message are discarded. -/
theorem C5_turn_grouping (st : GroupState) (t : Turn) (msg : Message)
    (pre rest : List Message)
    (hrole : msg.role = "user") (hempty : msg.text = "")
    (hres : msg.toolResults ≠ []) (hcur : st.current = some t)
    (hpre : ∀ m ∈ pre, m.role = "assistant") :
    groupStep st msg = { st with current := some { t with
        allToolResults := t.allToolResults ++ msg.toolResults,
        endLine := msg.lineNum } } ∧
    (∀ msg2 : Message, msg2.role = "user" →
      (msg2.text ≠ "" ∨ msg2.toolResults = []) →
      groupStep st msg2 = ⟨st.turns ++ [t], some (newTurn msg2)⟩) ∧
    (∀ (st2 : GroupState) (msg2 : Message), msg2.role = "user" →
      st2.current = none →
      groupStep st2 msg2 = ⟨st2.turns, some (newTurn msg2)⟩) ∧
    groupIntoTurns (pre ++ rest) = groupIntoTurns rest := by
  refine ⟨?_, ?_, ?_, ?_⟩
  · have htxt : msg.text.isEmpty = true := by rw [hempty]; rfl
    have hres2 : msg.toolResults.isEmpty = false := by
      cases hq : msg.toolResults with
      | nil => exact absurd hq hres
      | cons a l => rfl
    simp [groupStep, hrole, hcur, htxt, hres2]
  · intro msg2 hrole2 hdisj
    rcases hdisj with hne | hnil
    · have h1 : msg2.text.isEmpty = false := isEmpty_false_of_ne _ hne
      simp [groupStep, hrole2, hcur, h1]
    · have h2 : msg2.toolResults.isEmpty = true := by rw [hnil]; rfl
      simp [groupStep, hrole2, hcur, h2]
  · intro st2 msg2 hrole2 hcur2
    simp [groupStep, hrole2, hcur2]
  · simp only [groupIntoTurns, List.foldl_append]
    rw [show (⟨[], none⟩ : GroupState) = ⟨([] : List Turn), none⟩ from rfl,
      foldl_groupStep_assistant pre [] hpre]

/-- C5 witness: a synthetic tool-result user message between two states —
the open turn absorbs the results, no new turn opens. -/
theorem C5_turn_grouping_witness :
    groupStep ⟨[], some (newTurn ⟨1, "user", none, none, none, "hi", "", [], []⟩)⟩
        ⟨2, "user", none, none, none, "", "", [], [⟨none, "out", false⟩]⟩ =
      ⟨[], some { newTurn ⟨1, "user", none, none, none, "hi", "", [], []⟩ with
        allToolResults := [⟨none, "out", false⟩], endLine := 2 }⟩ :=
  (C5_turn_grouping
    ⟨[], some (newTurn ⟨1, "user", none, none, none, "hi", "", [], []⟩)⟩
    (newTurn ⟨1, "user", none, none, none, "hi", "", [], []⟩)
    ⟨2, "user", none, none, none, "", "", [], [⟨none, "out", false⟩]⟩
    [] [] rfl rfl (by decide) rfl (by simp)).1

/-- C10: for every `startLine`, `parseTranscript` on a null or nonexistent
path returns no messages and `lastLine = startLine` (not 0), so the hooks'
rollback test (`messages.length === 0 && lastLine < startLine`) can never
fire for a missing transcript file. -/
theorem C10_missing_transcript_no_rollback (startLine : Nat) :
    parseTranscript none startLine = ⟨[], startLine⟩ ∧
    rollbackDetected (parseTranscript none startLine) startLine = false := by
  refine ⟨rfl, ?_⟩
  simp [parseTranscript, rollbackDetected]

/-- C9 counterexample: a session row in the Ended state (`ended_at` set),
upserted with a new project, keeps its non-null `ended_at` — it does not
return to the Active state as the claim says. -/
theorem C9_upsert_counterexample :
    upsertSession ("t2") [⟨"s1", "projA", "t0", some ("t1"), 3, 2⟩] ("s1") ("projB")
      = [⟨"s1", "projB", "t0", some ("t1"), 3, 2⟩] ∧
    (upsertSession ("t2") [⟨"s1", "projA", "t0", some ("t1"), 3, 2⟩] ("s1") ("projB")).map
        SessionRow.endedAt = [some ("t1")] := by
  constructor <;> rfl

/-- C9 amended: `upsertSession` on an existing `session_id` keeps the same
single row and updates only `project` — `ended_at` (with every other
column) is left unchanged, so an Ended session row stays Ended; for an
unknown `session_id` a fresh live row (`ended_at` null) is appended. -/
theorem C9_upsert_updates_project_only (now : String) (rows : List SessionRow)
    (sid proj : String) :
    (rows.any (fun r => r.sessionId = sid) = true →
      upsertSession now rows sid proj =
        rows.map (fun r =>
          if r.sessionId = sid then { r with project := proj } else r)) ∧
    (rows.any (fun r => r.sessionId = sid) = false →
      upsertSession now rows sid proj = rows ++ [⟨sid, proj, now, none, 0, 0⟩]) := by
  constructor <;> intro h <;> simp [upsertSession, h]

/-- C9 witness: the amended theorem applied to a concrete ended row. -/
theorem C9_upsert_updates_project_only_witness :
    upsertSession ("t9") [⟨"sw", "pa", "t0", some ("t1"), 1, 1⟩] ("sw") ("pb")
      = [⟨"sw", "pb", "t0", some ("t1"), 1, 1⟩] := by
  have h := (C9_upsert_updates_project_only ("t9")
    [⟨"sw", "pa", "t0", some ("t1"), 1, 1⟩] ("sw") ("pb")).1 (by decide)
  simpa using h

/-- C1 counterexample: a memory whose `source_hash` is the non-null empty
string is not deduplicated — inserting it twice makes the second call
return a fresh id (not null) and grows the row count to 2, because the
code's truthiness guard (`if (sourceHash && …)`) skips the hash lookup for
`""` and stores `sourceHash || null` as NULL. -/
theorem C1_insert_empty_hash_counterexample :
    (insertMemory ("t")
        (insertMemory ("t") emptyStore
          ⟨"p", "s", "note", "c", "k", 1/2, some "", none⟩).2
        ⟨"p", "s", "note", "c", "k", 1/2, some "", none⟩).1 = some 2 ∧
    (insertMemory ("t")
        (insertMemory ("t") emptyStore
          ⟨"p", "s", "note", "c", "k", 1/2, some "", none⟩).2
        ⟨"p", "s", "note", "c", "k", 1/2, some "", none⟩).2.rows.length = 2 ∧
    (some "" : Option String) ≠ none := by
  refine ⟨rfl, rfl, by decide⟩

theorem hashExists_false_iff (st : StoreState) (h : String) :
    hashExists st h = false ↔ countHash st h = 0 := by
  simp [hashExists, countHash, List.any_eq_false, List.filter_eq_nil_iff]

theorem countHash_insertMemory (now : String) (st : StoreState)
    (m : MemoryInput) (h : String)
    (hg : (jsTruthyStr m.sourceHash && hashExists st (jsStr m.sourceHash)) ≠ true) :
    countHash (insertMemory now st m).2 h =
      countHash st h + (if jsOrNull m.sourceHash = some h then 1 else 0) := by
  simp only [insertMemory, if_neg hg]
  by_cases hrow : jsOrNull m.sourceHash = some h
  · simp [countHash, List.filter_append, List.filter, insertedRow, hrow]
  · simp [countHash, List.filter_append, List.filter, insertedRow, hrow]

theorem countHash_insertMemory_le (now : String) (st : StoreState)
    (m : MemoryInput) (h : String) :
    countHash (insertMemory now st m).2 h ≤ max (countHash st h) 1 := by
  by_cases hg : (jsTruthyStr m.sourceHash && hashExists st (jsStr m.sourceHash)) = true
  · have hst : (insertMemory now st m).2 = st := by simp [insertMemory, hg]
    rw [hst]
    exact le_max_left _ _
  · rw [countHash_insertMemory now st m h hg]
    by_cases hrow : jsOrNull m.sourceHash = some h
    · have htr : jsTruthyStr m.sourceHash = true := by
        cases hq : jsTruthyStr m.sourceHash with
        | true => rfl
        | false => simp [jsOrNull, hq] at hrow
      have hsh : m.sourceHash = some h := by
        rw [jsOrNull, if_pos htr] at hrow
        exact hrow
      have hex : hashExists st (jsStr m.sourceHash) = false := by
        cases hq : hashExists st (jsStr m.sourceHash) with
        | false => rfl
        | true => exact absurd (by simp [htr, hq]) hg
      have hc0 : countHash st h = 0 := by
        have := (hashExists_false_iff st (jsStr m.sourceHash)).mp hex
        simpa [hsh, jsStr] using this
      simp [hrow, hc0]
    · simp [hrow]

theorem insertMany_state_indep (now : String) (ms : List MemoryInput) :
    ∀ (c c' : Nat) (st : StoreState),
      (ms.foldl (fun acc m =>
        let r := insertMemory now acc.2 m
        (acc.1 + (if r.1.isSome then 1 else 0), r.2)) (c, st)).2 =
      (ms.foldl (fun acc m =>
        let r := insertMemory now acc.2 m
        (acc.1 + (if r.1.isSome then 1 else 0), r.2)) (c', st)).2 := by
  induction ms with
  | nil => intro c c' st; rfl
  | cons m rest ih => intro c c' st; exact ih _ _ _

theorem countHash_insertMany_le (now : String) (st : StoreState)
    (ms : List MemoryInput) (h : String) :
    countHash (insertMany now st ms).2 h ≤ max (countHash st h) 1 := by
  induction ms generalizing st with
  | nil => exact le_max_left _ _
  | cons m rest ih =>
      have hstep := countHash_insertMemory_le now st m h
      have htail := ih ((insertMemory now st m).2)
      have heq : (insertMany now st (m :: rest)).2 =
          (insertMany now ((insertMemory now st m).2) rest).2 := by
        simp only [insertMany, List.foldl_cons]
        exact insertMany_state_indep now rest _ 0 _
      rw [heq]
      refine le_trans htail ?_
      have : max (countHash ((insertMemory now st m).2) h) 1 ≤
          max (max (countHash st h) 1) 1 := by
        exact max_le_max hstep (le_refl 1)
      simpa [max_assoc] using this

/-- C1 amended: dedup by `source_hash` holds for every *non-null, non-empty*
hash (JS truthiness, not mere non-nullness): if a row with the hash exists,
`insertMemory` returns null and leaves the store unchanged; inserting the
same memory twice makes the second call return null with the row count
unchanged; and after `insertMany` of any batch the store holds at most one
row with that hash (at most `max(previous count, 1)`). -/
theorem C1_source_hash_dedup (now : String) (st : StoreState) (m : MemoryInput)
    (h : String) (hh : m.sourceHash = some h) (hne : h ≠ "") :
    (hashExists st h = true → insertMemory now st m = (none, st)) ∧
    ((insertMemory now (insertMemory now st m).2 m).1 = none ∧
     (insertMemory now (insertMemory now st m).2 m).2.rows.length =
       (insertMemory now st m).2.rows.length) ∧
    (∀ ms, countHash (insertMany now st ms).2 h ≤ max (countHash st h) 1) := by
  have htr : jsTruthyStr (some h) = true := by
    simp [jsTruthyStr, isEmpty_false_of_ne h hne]
  refine ⟨?_, ?_, fun ms => countHash_insertMany_le now st ms h⟩
  · intro hex
    simp [insertMemory, htr, jsStr, hh, hex]
  · by_cases hex : hashExists st h = true
    · have h1 : insertMemory now st m = (none, st) := by
        simp [insertMemory, htr, jsStr, hh, hex]
      rw [h1]
      simp [h1]
    · have hexf : hashExists st h = false := by
        cases hq : hashExists st h with
        | false => rfl
        | true => exact absurd hq hex
      have hrows : (insertMemory now st m).2.rows =
          st.rows ++ [insertedRow now st m] := by
        simp [insertMemory, jsStr, hh, htr, hexf]
      have hex2 : hashExists (insertMemory now st m).2 h = true := by
        simp [hashExists, hrows, insertedRow, jsOrNull, htr, hh]
      have h2 : insertMemory now (insertMemory now st m).2 m =
          (none, (insertMemory now st m).2) := by
        generalize hst2 : (insertMemory now st m).2 = st2 at hex2
        simp [insertMemory, htr, jsStr, hh, hex2]
      rw [h2]
      exact ⟨rfl, rfl⟩

/-- C1 witness: the amended theorem at a concrete one-element batch —
the second insert of the same hash is rejected. -/
theorem C1_source_hash_dedup_witness :
    (insertMemory ("t")
        (insertMemory ("t") emptyStore
          ⟨"p", "s", "note", "c", "k", 1/2, some ("h1"), none⟩).2
        ⟨"p", "s", "note", "c", "k", 1/2, some ("h1"), none⟩).1 = none :=
  (C1_source_hash_dedup ("t") emptyStore
    ⟨"p", "s", "note", "c", "k", 1/2, some ("h1"), none⟩ ("h1") rfl
    (by decide)).2.1.1

/-- C3 counterexample: the code's sanitizer is not the specified pipeline —
on the query `a*` the code strips `*`, then drops the now-too-short token
in a second length filter and returns the empty expression (so `search`
returns `[]`), while the specified pipeline (drop-short before stripping
only) produces the query `"a"`. -/
theorem C3_sanitize_counterexample :
    buildFtsQuery ("a*") = "" ∧ buildFtsQuerySpec ("a*") = "\"a\"" ∧
    buildFtsQuery ("a*") ≠ buildFtsQuerySpec ("a*") := by
  refine ⟨by decide, by decide, by decide⟩

theorem buildFtsQuery_eq_amended (q : String) :
    buildFtsQuery q = buildFtsQueryAmended q := by
  have hl : ∀ (l : List String),
      ((((l.filter (fun w => w.length > 1)).map
          (fun w => doubleQuotesStr (stripFtsMeta w))).filter
            (fun w => w.length > 1)).map (fun w => "\"" ++ w ++ "\"")) =
        l.filterMap sanitizeToken := by
    intro l
    induction l with
    | nil => rfl
    | cons w rest ih =>
        by_cases h1 : w.length > 1
        · by_cases h2 : (doubleQuotesStr (stripFtsMeta w)).length > 1
          · simp [h1, h2, sanitizeToken, ih]
          · simp [h1, h2, sanitizeToken, ih]
        · simp [h1, sanitizeToken, ih]
  simp only [buildFtsQuery, buildFtsQueryAmended]
  rw [hl]

/-- C3 amended: the sanitizer is the specified pipeline *plus a second
drop of tokens whose length after stripping and quote-doubling is ≤ 1*;
with that amendment the rest of the claim holds: an empty sanitized
expression yields `[]`, and an index parse error is caught and yields `[]`
instead of raising (the model's total `search` returns the result list on
success and `[]` on error, for every query — including ones with quotes,
AND/OR/NOT/NEAR, `*`, parentheses, or column prefixes). -/
theorem C3_search_sanitizes_and_never_raises
    (ftsExec : String → Option String → Nat → Except Unit (List Row))
    (q : String) (project : Option String) (limit : Nat) :
    buildFtsQuery q = buildFtsQueryAmended q ∧
    (buildFtsQuery q = "" → search ftsExec q project limit = []) ∧
    (∀ e, ftsExec (buildFtsQuery q) project limit = Except.error e →
      search ftsExec q project limit = []) ∧
    (∀ rs, ftsExec (buildFtsQuery q) project limit = Except.ok rs →
      search ftsExec q project limit = [] ∨ search ftsExec q project limit = rs) := by
  refine ⟨buildFtsQuery_eq_amended q, ?_, ?_, ?_⟩
  · intro h
    simp [search, h]
  · intro e he
    by_cases h : buildFtsQuery q = ""
    · simp [search, h]
    · simp [search, h, he]
  · intro rs hrs
    by_cases h : buildFtsQuery q = ""
    · exact Or.inl (by simp [search, h])
    · exact Or.inr (by simp [search, h, hrs])

/-- C3 witness: concrete queries with FTS operators — a quoted/starred
query and an erroring index both yield `[]` without raising. -/
theorem C3_search_sanitizes_and_never_raises_witness :
    search (fun _ _ _ => Except.error ()) ("react AND \"frontend\" NEAR(x) cont:ent")
      none 10 = [] :=
  (C3_search_sanitizes_and_never_raises (fun _ _ _ => Except.error ())
    ("react AND \"frontend\" NEAR(x) cont:ent") none 10).2.2.1 () rfl

set_option maxRecDepth 4000 in
/-- C7 counterexample: a thinking block with four qualifying architecture
lines yields **three** architecture memories (the code caps at
`slice(0, 3)`), contradicting the claimed cap of 2. -/
theorem C7_arch_cap_counterexample :
    (extractArchitecture
      ("the architecture here uses layers pt one\nthe architecture here uses layers pt two\nthe architecture here uses layers pt three\nthe architecture here uses layers pt four")).length
      = 3 ∧
    ((extractMemories defaultConfig
        [⟨⟨1, "user", none, none, none, "", "", [], []⟩,
          [⟨5, "assistant", none, none, none, "",
            "the architecture here uses layers pt one\nthe architecture here uses layers pt two\nthe architecture here uses layers pt three\nthe architecture here uses layers pt four",
            [], []⟩],
          [], [], 1, 5⟩] ("p") ("s")).filter
        (fun m => m.category = "architecture")).length = 3 ∧
    ¬(3 ≤ 2) := by
  refine ⟨by decide, by decide, by decide⟩

theorem extractArchitecture_le_three (thinking : String) :
    (extractArchitecture thinking).length ≤ 3 := by
  simpa [extractArchitecture] using
    (List.length_take_le 3 ((((splitOnNL thinking).map trimStr).filter archKeep)))

/-- C7 amended: per assistant thinking block the extractor emits one
architecture memory per qualifying line — trimmed length in [30, 400] and
matching the **code's** architecture vocabulary (`archAlts`: architecture,
design pattern, module structure, …, repository pattern) — capped at the
first **3** such lines (not 2, and not the looser vocabulary the claim
lists). -/
theorem filter_arch_of_decisions (cfg : Config) (p s : String) (l : List String) :
    ((l.map (fun d => buildMemory cfg p s ("decision") d
        (extractKeywords cfg d) d none)).filter
      (fun m => m.category = "architecture")) = [] := by
  induction l with
  | nil => rfl
  | cons d rest ih => simpa [List.filter, buildMemory] using ih

theorem filter_arch_of_archs (cfg : Config) (p s : String) (l : List String) :
    ((l.map (fun a => buildMemory cfg p s ("architecture") a
        (extractKeywords cfg a) a none)).filter
      (fun m => m.category = "architecture")) =
    (l.map (fun a => buildMemory cfg p s ("architecture") a
        (extractKeywords cfg a) a none)) := by
  induction l with
  | nil => rfl
  | cons a rest ih => simpa [List.filter, buildMemory] using ih

theorem C7_arch_per_thinking_block (cfg : Config) (p s : String)
    (msg : Message) (thinking l : String)
    (hl : l ∈ extractArchitecture thinking) :
    ((assistantMemories cfg p s msg).filter
        (fun m => m.category = "architecture")).length =
      (extractArchitecture msg.thinking).length ∧
    (extractArchitecture msg.thinking).length ≤ 3 ∧
    (30 ≤ l.length ∧ l.length ≤ 400 ∧ testArchLine l = true) := by
  refine ⟨?_, extractArchitecture_le_three _, ?_⟩
  · have hempty : extractArchitecture ("") = [] := by decide
    by_cases hth : msg.thinking.isEmpty
    · have hth' : msg.thinking = "" := (String.isEmpty_iff _).mp hth
      by_cases htx : msg.text.isEmpty <;>
        simp [assistantMemories, htx, hth, hth', hempty, filter_arch_of_decisions]
    · by_cases htx : msg.text.isEmpty <;>
        simp [assistantMemories, htx, hth, filter_arch_of_decisions,
          filter_arch_of_archs]
  · have hl' : l ∈ ((splitOnNL thinking).map trimStr).filter archKeep := by
      have := hl
      simp only [extractArchitecture] at this
      exact List.mem_of_mem_take this
    have hk : archKeep l = true := (List.mem_filter.mp hl').2
    simp only [archKeep, Bool.and_eq_true, Bool.not_eq_true',
      Bool.or_eq_false_iff, decide_eq_false_iff_not, not_lt] at hk
    exact ⟨hk.1.1, hk.1.2, hk.2⟩

/-- C7 witness: the amended theorem at a one-line thinking block. -/
theorem C7_arch_per_thinking_block_witness :
    ((assistantMemories defaultConfig ("p") ("s")
        ⟨5, "assistant", none, none, none, "",
          "the architecture here uses layers pt one", [], []⟩).filter
        (fun m => m.category = "architecture")).length =
      (extractArchitecture ("the architecture here uses layers pt one")).length :=
  (C7_arch_per_thinking_block defaultConfig ("p") ("s")
    ⟨5, "assistant", none, none, none, "",
      "the architecture here uses layers pt one", [], []⟩
    ("the architecture here uses layers pt one")
    ("the architecture here uses layers pt one") (by decide)).1

/-- C8 counterexample: a turn whose user text has length 25 — inside
(20, 500] — but carries a task-notification marker produces **no** note:
the code additionally requires `isUserMessageWorthSaving`. -/
theorem C8_user_note_counterexample :
    extractMemories defaultConfig
      [⟨⟨1, "user", none, none, none, "<task-notification> hello", "", [], []⟩,
        [], [], [], 1, 1⟩] ("p") ("s") = [] ∧
    ("<task-notification> hello").length = 25 ∧ 20 < 25 ∧ 25 ≤ 500 := by
  refine ⟨by decide, by decide, by decide, by decide⟩

/-- C8 amended: for a turn with no tool calls, tool results or assistant
messages, the extractor emits exactly one note — content
`User request: …` (truncated to 200) with the override score 0.35 — iff
the user text length is in (20, 500] **and** the text passes
`isUserMessageWorthSaving` (no task-notification marker, not tag-led, at
most three `<…>` tags, not long JSON); otherwise it emits nothing.  At
boundary lengths 20 and 501 no note is emitted; at 21 and 500 a
worth-saving text is captured. -/
theorem C8_user_note_boundaries (cfg : Config) (t : Turn) (p s : String)
    (h1 : t.allToolCalls = []) (h2 : t.allToolResults = [])
    (h3 : t.assistantMessages = []) :
    extractMemories cfg [t] p s =
      (if 20 < t.userMessage.text.length ∧ t.userMessage.text.length ≤ 500 ∧
          isUserMessageWorthSaving t.userMessage.text = true then
        [buildMemory cfg p s ("note")
          ("User request: " ++ truncateJS t.userMessage.text 200)
          (extractKeywords cfg t.userMessage.text) t.userMessage.text
          (some (35/100))]
      else []) ∧
    (∀ m ∈ extractMemories cfg [t] p s,
      m.score = 35/100 ∧ ∃ rest, m.content = "User request: " ++ rest) := by
  have key : extractMemories cfg [t] p s = userNoteMemories cfg p s t := by
    simp [extractMemories, turnMemories, h1, h2, h3]
  constructor
  · rw [key]
    simp only [userNoteMemories]
    by_cases hc : 20 < t.userMessage.text.length ∧
        t.userMessage.text.length ≤ 500 ∧
        isUserMessageWorthSaving t.userMessage.text = true
    · have hgt := hc.1
      have hle := hc.2.1
      have hw := hc.2.2
      have hne : t.userMessage.text.isEmpty = false :=
        isEmpty_false_of_ne _ (fun h0 => by simp [h0] at hgt)
      rw [if_pos hc]
      simp [hne, hgt, hle, hw]
    · rw [if_neg hc]
      cases hgb : (!t.userMessage.text.isEmpty &&
          decide (t.userMessage.text.length > 20) &&
          decide (t.userMessage.text.length ≤ 500) &&
          isUserMessageWorthSaving t.userMessage.text) with
      | false => simp [hgb]
      | true =>
          exfalso
          apply hc
          simp only [Bool.and_eq_true, decide_eq_true_eq] at hgb
          exact ⟨hgb.1.1.2, hgb.1.2, hgb.2⟩
  · intro m hm
    rw [key] at hm
    simp only [userNoteMemories] at hm
    split at hm
    · simp only [List.mem_singleton] at hm
      subst hm
      exact ⟨rfl, ⟨truncateJS t.userMessage.text 200, rfl⟩⟩
    · exact absurd hm (List.not_mem_nil m)

set_option maxRecDepth 8000 in
/-- C8 witness: the amended theorem at the four boundary lengths —
length 20 and 501 yield no note, length 21 and 500 yield one. -/
theorem C8_user_note_boundaries_witness :
    extractMemories defaultConfig
      [⟨⟨1, "user", none, none, none, ⟨List.replicate 20 'a'⟩, "", [], []⟩,
        [], [], [], 1, 1⟩] ("p") ("s") = [] ∧
    (extractMemories defaultConfig
      [⟨⟨1, "user", none, none, none, ⟨List.replicate 21 'a'⟩, "", [], []⟩,
        [], [], [], 1, 1⟩] ("p") ("s")).length = 1 ∧
    (extractMemories defaultConfig
      [⟨⟨1, "user", none, none, none, ⟨List.replicate 500 'a'⟩, "", [], []⟩,
        [], [], [], 1, 1⟩] ("p") ("s")).length = 1 ∧
    extractMemories defaultConfig
      [⟨⟨1, "user", none, none, none, ⟨List.replicate 501 'a'⟩, "", [], []⟩,
        [], [], [], 1, 1⟩] ("p") ("s") = [] := by
  refine ⟨?_, ?_, ?_, ?_⟩
  · rw [(C8_user_note_boundaries defaultConfig _ ("p") ("s") rfl rfl rfl).1]
    decide
  · rw [(C8_user_note_boundaries defaultConfig _ ("p") ("s") rfl rfl rfl).1]
    decide
  · rw [(C8_user_note_boundaries defaultConfig _ ("p") ("s") rfl rfl rfl).1]
    decide
  · rw [(C8_user_note_boundaries defaultConfig _ ("p") ("s") rfl rfl rfl).1]
    decide

theorem scoreMemory_mem_unit (cfg : Config) (category content : String)
    (h0 : 0 ≤ effectiveWeight cfg category)
    : 0 ≤ scoreMemory cfg category content ∧ scoreMemory cfg category content ≤ 1 := by
  constructor
  · apply le_min _ (by norm_num)
    have hb : (0 : ℚ) ≤ min ((content.length : ℚ) / 500) (1/10) :=
      le_min (by positivity) (by norm_num)
    linarith
  · exact min_le_right _ _

theorem extractMemories_invariant (cfg : Config) (turns : List Turn)
    (p sid : String)
    (hw : ∀ c, 0 ≤ effectiveWeight cfg c) :
    ∀ mem ∈ extractMemories cfg turns p sid,
      mem.category ∈ sixCategories ∧ 0 ≤ mem.score ∧ mem.score ≤ 1 := by
  intro mem hmem
  simp only [extractMemories, List.mem_flatMap] at hmem
  obtain ⟨t, _, hmem⟩ := hmem
  simp only [turnMemories, List.mem_append, List.mem_flatMap] at hmem
  have hbuild : ∀ (category content keywords sourceText : String),
      category ∈ sixCategories →
      mem = buildMemory cfg p sid category content keywords sourceText none →
      mem.category ∈ sixCategories ∧ 0 ≤ mem.score ∧ mem.score ≤ 1 := by
    intro category content keywords sourceText hcat heq
    subst heq
    refine ⟨hcat, ?_⟩
    simpa [buildMemory] using scoreMemory_mem_unit cfg category content (hw category)
  rcases hmem with ((⟨tc, _, htc⟩ | ⟨tr, _, htr⟩) | ⟨am, _, ham⟩) | hun
  · rcases htc with hfc | hbash
    · simp only [fileChangeMemories] at hfc
      split at hfc
      · split at hfc
        · exact absurd hfc (List.not_mem_nil mem)
        · simp only [List.mem_singleton] at hfc
          exact hbuild _ _ _ _ (by decide) hfc
      · exact absurd hfc (List.not_mem_nil mem)
    · simp only [bashMemories] at hbash
      split at hbash
      · split at hbash
        · simp only [List.mem_singleton] at hbash
          exact hbuild _ _ _ _ (by decide) hbash
        · exact absurd hbash (List.not_mem_nil mem)
      · exact absurd hbash (List.not_mem_nil mem)
  · simp only [errorMemories] at htr
    split at htr
    · simp only [List.mem_singleton] at htr
      exact hbuild _ _ _ _ (by decide) htr
    · exact absurd htr (List.not_mem_nil mem)
  · simp only [assistantMemories, List.mem_append] at ham
    rcases ham with hd | ha
    · split at hd
      · simp only [List.mem_map] at hd
        obtain ⟨d, _, hd⟩ := hd
        exact hbuild _ _ _ _ (by decide) hd.symm
      · exact absurd hd (List.not_mem_nil mem)
    · split at ha
      · simp only [List.mem_map] at ha
        obtain ⟨a, _, ha⟩ := ha
        exact hbuild _ _ _ _ (by decide) ha.symm
      · exact absurd ha (List.not_mem_nil mem)
  · simp only [userNoteMemories] at hun
    split at hun
    · simp only [List.mem_singleton] at hun
      subst hun
      refine ⟨by simp [buildMemory, sixCategories], by norm_num [buildMemory],
        by norm_num [buildMemory]⟩
    · exact absurd hun (List.not_mem_nil mem)

/-- C4: stored-memory invariants — every extractor-produced memory has a
category in the six-value set and (for nonnegative effective category
weights, as the defaults are) a score in [0,1]; `scoreMemory` caps at 1
unconditionally; the touch bump `min(1, s + 0.02·(1−s))` stays in [0,1]
and cannot cross 1, while incrementing `access_count` and preserving the
category; and decay `max(scoreFloor, s·decayFactor)` stays in [0,1] for
the validated config fractions. -/
theorem C4_score_access_category_invariants (cfg : Config)
    (category content : String) (sc fl fa : ℚ) (r : Row) (now : String)
    (turns : List Turn) (p sid : String) (mem : MemRecord)
    (hw : ∀ c, 0 ≤ effectiveWeight cfg c)
    (hs0 : 0 ≤ sc) (hs1 : sc ≤ 1) (hfl0 : 0 ≤ fl) (hfl1 : fl ≤ 1)
    (hfa0 : 0 ≤ fa) (hfa1 : fa ≤ 1)
    (hr0 : 0 ≤ r.score) (hr1 : r.score ≤ 1)
    (hmem : mem ∈ extractMemories cfg turns p sid) :
    (0 ≤ scoreMemory cfg category content ∧ scoreMemory cfg category content ≤ 1) ∧
    (0 ≤ touchScore sc ∧ touchScore sc ≤ 1) ∧
    ((touchRow now r).accessCount = r.accessCount + 1 ∧
     (touchRow now r).category = r.category ∧
     0 ≤ (touchRow now r).score ∧ (touchRow now r).score ≤ 1) ∧
    (0 ≤ decayScore fl fa sc ∧ decayScore fl fa sc ≤ 1) ∧
    (mem.category ∈ sixCategories ∧ 0 ≤ mem.score ∧ mem.score ≤ 1) := by
  have htouch : ∀ x : ℚ, 0 ≤ x → x ≤ 1 → 0 ≤ touchScore x ∧ touchScore x ≤ 1 := by
    intro x hx0 hx1
    constructor
    · apply le_min (by norm_num)
      nlinarith
    · exact min_le_left _ _
  refine ⟨⟨(scoreMemory_mem_unit cfg category content (hw category)).1,
          (scoreMemory_mem_unit cfg category content (hw category)).2⟩,
         htouch sc hs0 hs1, ⟨rfl, rfl, ?_, ?_⟩, ⟨?_, ?_⟩,
         extractMemories_invariant cfg turns p sid hw mem hmem⟩
  · exact (htouch r.score hr0 hr1).1
  · exact (htouch r.score hr0 hr1).2
  · exact le_max_of_le_left hfl0
  · apply max_le hfl1
    nlinarith

/-- C4 witness: the invariants at the default config, a concrete row and a
concrete extracted memory. -/
theorem C4_score_access_category_invariants_witness :
    0 ≤ scoreMemory defaultConfig ("note") ("hello world") ∧
    scoreMemory defaultConfig ("note") ("hello world") ≤ 1 := by
  have hw : ∀ c, 0 ≤ effectiveWeight defaultConfig c := by
    intro c
    simp only [effectiveWeight, defaultConfig, defaultCategoryWeights]
    split_ifs <;> norm_num
  have h := C4_score_access_category_invariants defaultConfig ("note")
    ("hello world") (1/2) (1/100) (95/100)
    ⟨1, "p", "s", "note", "c", "k", 1/2, "t", "t", 0, none, none⟩ ("t")
    [⟨⟨1, "user", none, none, none, "", "", [], []⟩,
      [], [], [⟨none, "boom", true⟩], 1, 1⟩] ("p") ("s")
    (buildMemory defaultConfig ("p") ("s") ("error")
      ("Error encountered: " ++ truncateJS ("boom") 300)
      (extractKeywords defaultConfig ("boom")) ("boom") none)
    hw (by norm_num) (by norm_num) (by norm_num) (by norm_num)
    (by norm_num) (by norm_num) (by norm_num) (by norm_num)
    (by simp [extractMemories, turnMemories, errorMemories,
          assistantMemories, userNoteMemories,
          (by decide : ("boom" : String).isEmpty = false)])
  exact h.1

theorem joinLen_cons (x : String) (xs : List String) :
    joinLen (x :: xs) = x.length + 1 + joinLen xs := by
  simp [joinLen]
  omega

theorem joinLen_append (xs ys : List String) :
    joinLen (xs ++ ys) = joinLen xs + joinLen ys := by
  simp [joinLen]
  omega

theorem len_nl : ("\n" : String).length = 1 := rfl

theorem len_dash : ("- " : String).length = 2 := rfl

theorem len_hdr : ("### " : String).length = 4 := rfl

theorem joinNL_length (parts : List String) (h : parts ≠ []) :
    (joinNL parts).length + 1 = joinLen parts := by
  induction parts with
  | nil => exact absurd rfl h
  | cons x xs ih =>
      cases xs with
      | nil => simp [joinNL, joinLen]
      | cons y ys =>
          have hx : (joinNL (x :: y :: ys)).length =
              x.length + 1 + (joinNL (y :: ys)).length := by
            simp [joinNL, String.length_append, len_nl]
          rw [joinLen_cons, hx]
          have := ih (by simp)
          omega

theorem joinLen_map_lines (items : List Row) :
    joinLen (items.map (fun m => "- " ++ m.content)) =
      (items.map (fun m => m.content.length + 3)).sum := by
  induction items with
  | nil => simp [joinLen]
  | cons m rest ih =>
      rw [List.map_cons, joinLen_cons, ih]
      simp [String.length_append, len_dash]
      omega

theorem joinLen_sectionParts (label : String) (items : List Row) :
    joinLen (sectionParts label items) = secLen label items := by
  cases items with
  | nil => simp [sectionParts, secLen, joinLen]
  | cons m rest =>
      have hne : ((m :: rest : List Row)).isEmpty = false := rfl
      simp only [sectionParts, secLen, hne, Bool.false_eq_true, if_false]
      rw [joinLen_cons, joinLen_append, joinLen_map_lines]
      simp [joinLen, String.length_append, len_hdr]
      omega

theorem joinLen_sectionsOf (g : Groups) :
    joinLen (sectionsOf g) = groupsLen g := by
  simp only [sectionsOf, categoryPairs, groupsLen, List.flatMap_cons,
    List.flatMap_nil, List.map_cons, List.map_nil, List.sum_cons,
    List.sum_nil, List.append_nil, joinLen_append, joinLen_sectionParts]
  omega

theorem secLen_append_one (label : String) (items : List Row) (m : Row) :
    secLen label (items ++ [m]) =
      secLen label items + (m.content.length + 3) +
        (if items.isEmpty then label.length + 6 else 0) := by
  cases items with
  | nil => simp [secLen]; omega
  | cons x rest => simp [secLen]; omega

theorem groupGet_push_self (g : Groups) (cat : String) (m : Row) :
    groupGet (groupPush g cat m) cat = groupGet g cat ++ [m] := by
  unfold groupGet groupPush
  split_ifs <;> rfl

theorem groupGet_push_cases (g : Groups) (cat c : String) (m : Row) :
    groupGet (groupPush g cat m) c = groupGet g c ∨
    groupGet (groupPush g cat m) c = groupGet g c ++ [m] := by
  unfold groupPush
  split_ifs
  all_goals
    unfold groupGet
  all_goals
    split_ifs <;> simp

theorem line_string_length (c : String) :
    ("- " ++ c ++ "\n").length = c.length + 3 := by
  simp [String.length_append, len_dash, len_nl]
  omega

theorem line_cost (c : String) :
    2 * (c.length + 3) ≤ 7 * estimateTokens ("- " ++ c ++ "\n") := by
  have hne : ("- " ++ c ++ "\n") ≠ "" := by
    intro h
    have := congrArg String.length h
    rw [line_string_length] at this
    simp at this
  have hemp : ("- " ++ c ++ "\n").isEmpty = false := isEmpty_false_of_ne _ hne
  rw [estimateTokens, hemp]
  simp only [Bool.false_eq_true, if_false, line_string_length]
  have hmod := Nat.div_add_mod (2 * (c.length + 3) + 6) 7
  have hlt := Nat.mod_lt (2 * (c.length + 3) + 6) (show 0 < 7 by norm_num)
  omega

theorem catOf_cases (m : Row) :
    catOf m = "architecture" ∨ catOf m = "decision" ∨ catOf m = "error" ∨
    catOf m = "finding" ∨ catOf m = "file_change" ∨ catOf m = "note" := by
  unfold catOf knownCategory
  split
  · rename_i h
    simpa [sixCategories] using h
  · simp

theorem append_one_isEmpty_false (l : List Row) (m : Row) :
    (l ++ [m]).isEmpty = false := by
  cases l <;> rfl

theorem groupsLen_push_le (g : Groups) (m : Row) (cat : String)
    (hcat : cat = "architecture" ∨ cat = "decision" ∨ cat = "error" ∨
      cat = "finding" ∨ cat = "file_change" ∨ cat = "note") :
    2 * groupsLen (groupPush g cat m) + archSlack (groupPush g cat m) ≤
      2 * groupsLen g + archSlack g + 2 * (m.content.length + 3) +
        (if (groupGet g cat).isEmpty then 42 else 0) := by
  have h1 : ("Architecture & Design" : String).length = 21 := rfl
  have h2 : ("Key Decisions" : String).length = 13 := rfl
  have h3 : ("Known Issues" : String).length = 12 := rfl
  have h4 : ("Findings" : String).length = 8 := rfl
  have h5 : ("Files Modified" : String).length = 14 := rfl
  have h6 : ("Notes" : String).length = 5 := rfl
  rcases hcat with h | h | h | h | h | h <;> subst h
  · have hpush : groupPush g ("architecture") m =
        { g with architecture := g.architecture ++ [m] } := by
      simp [groupPush]
    have hget : groupGet g ("architecture") = g.architecture := by
      simp [groupGet]
    rw [hpush, hget]
    simp only [groupsLen, categoryPairs, archSlack, List.map_cons, List.map_nil,
      List.sum_cons, List.sum_nil, secLen_append_one,
      append_one_isEmpty_false, h1]
    by_cases hemp : g.architecture.isEmpty <;> simp [hemp] <;> omega
  · have hpush : groupPush g ("decision") m =
        { g with decision := g.decision ++ [m] } := by
      simp [groupPush]
    have hget : groupGet g ("decision") = g.decision := by
      simp [groupGet]
    rw [hpush, hget]
    simp only [groupsLen, categoryPairs, archSlack, List.map_cons, List.map_nil,
      List.sum_cons, List.sum_nil, secLen_append_one, h2]
    by_cases hemp : g.decision.isEmpty <;> by_cases hae : g.architecture.isEmpty <;>
      (try simp [hemp, hae]) <;> omega
  · have hpush : groupPush g ("error") m =
        { g with error := g.error ++ [m] } := by
      simp [groupPush]
    have hget : groupGet g ("error") = g.error := by
      simp [groupGet]
    rw [hpush, hget]
    simp only [groupsLen, categoryPairs, archSlack, List.map_cons, List.map_nil,
      List.sum_cons, List.sum_nil, secLen_append_one, h3]
    by_cases hemp : g.error.isEmpty <;> by_cases hae : g.architecture.isEmpty <;>
      (try simp [hemp, hae]) <;> omega
  · have hpush : groupPush g ("finding") m =
        { g with finding := g.finding ++ [m] } := by
      simp [groupPush]
    have hget : groupGet g ("finding") = g.finding := by
      simp [groupGet]
    rw [hpush, hget]
    simp only [groupsLen, categoryPairs, archSlack, List.map_cons, List.map_nil,
      List.sum_cons, List.sum_nil, secLen_append_one, h4]
    by_cases hemp : g.finding.isEmpty <;> by_cases hae : g.architecture.isEmpty <;>
      (try simp [hemp, hae]) <;> omega
  · have hpush : groupPush g ("file_change") m =
        { g with file_change := g.file_change ++ [m] } := by
      simp [groupPush]
    have hget : groupGet g ("file_change") = g.file_change := by
      simp [groupGet]
    rw [hpush, hget]
    simp only [groupsLen, categoryPairs, archSlack, List.map_cons, List.map_nil,
      List.sum_cons, List.sum_nil, secLen_append_one, h5]
    by_cases hemp : g.file_change.isEmpty <;> by_cases hae : g.architecture.isEmpty <;>
      (try simp [hemp, hae]) <;> omega
  · have hpush : groupPush g ("note") m =
        { g with note := g.note ++ [m] } := by
      simp [groupPush]
    have hget : groupGet g ("note") = g.note := by
      simp [groupGet]
    rw [hpush, hget]
    simp only [groupsLen, categoryPairs, archSlack, List.map_cons, List.map_nil,
      List.sum_cons, List.sum_nil, secLen_append_one, h6]
    by_cases hemp : g.note.isEmpty <;> by_cases hae : g.architecture.isEmpty <;>
      (try simp [hemp, hae]) <;> omega

theorem RInv_step (maxT : Nat) (st : RestoreState) (m : Row)
    (hinv : RInv maxT st)
    (hok : ¬(st.totalTokens + estimateTokens ("- " ++ m.content ++ "\n") +
        (if st.seen.contains (catOf m) then 0 else sectionHeaderTokens) > maxT)) :
    RInv maxT
      ⟨st.totalTokens +
         (if st.seen.contains (catOf m) then 0 else sectionHeaderTokens) +
         estimateTokens ("- " ++ m.content ++ "\n"),
       if st.seen.contains (catOf m) then st.seen else catOf m :: st.seen,
       groupPush st.groups (catOf m) m,
       st.restoredIds ++ [m.id]⟩ := by
  obtain ⟨hA, hB, hC⟩ := hinv
  have hline := line_cost m.content
  have hpushle := groupsLen_push_le st.groups m (catOf m) (catOf_cases m)
  have hsec6 : sectionHeaderTokens = 6 := rfl
  refine ⟨?_, Or.inr ?_, ?_⟩
  · by_cases hseen : st.seen.contains (catOf m)
    · have hne : groupGet st.groups (catOf m) ≠ [] := hC _ hseen
      have hempf : (groupGet st.groups (catOf m)).isEmpty = false := by
        cases hq : groupGet st.groups (catOf m) with
        | nil => exact absurd hq hne
        | cons a l => rfl
      rw [hempf] at hpushle
      simp only [hseen, if_true] at *
      simp only [Bool.false_eq_true, if_false] at hpushle
      omega
    · have hseenf : st.seen.contains (catOf m) = false := by
        cases hq : st.seen.contains (catOf m) with
        | false => rfl
        | true => exact absurd hq hseen
      simp only [hseenf, Bool.false_eq_true, if_false] at *
      have hite : (if (groupGet st.groups (catOf m)).isEmpty then 42 else 0) ≤ 42 := by
        split <;> omega
      rw [hsec6]
      omega
  · simp only [RestoreState.mk.injEq]
    omega
  · intro c hc
    by_cases hseen : st.seen.contains (catOf m)
    · simp only [hseen, if_true] at hc
      have hne := hC c hc
      rcases groupGet_push_cases st.groups (catOf m) c m with he | he <;> rw [he]
      · exact hne
      · intro habs
        exact absurd (List.append_eq_nil.mp habs).2 (by simp)
    · have hseenf : st.seen.contains (catOf m) = false := by
        cases hq : st.seen.contains (catOf m) with
        | false => rfl
        | true => exact absurd hq hseen
      simp only [hseenf, Bool.false_eq_true, if_false] at hc
      rw [List.contains_cons] at hc
      simp only [Bool.or_eq_true, beq_iff_eq] at hc
      rcases hc with hc | hc
      · rw [hc, groupGet_push_self]
        intro habs
        exact absurd (List.append_eq_nil.mp habs).2 (by simp)
      · have hne := hC c hc
        rcases groupGet_push_cases st.groups (catOf m) c m with he | he <;> rw [he]
        · exact hne
        · intro habs
          exact absurd (List.append_eq_nil.mp habs).2 (by simp)

theorem restoreLoop_inv (maxT : Nat) (l : List Row) :
    ∀ st : RestoreState, RInv maxT st → RInv maxT (restoreLoop maxT st l) := by
  induction l with
  | nil => intro st h; exact h
  | cons m rest ih =>
      intro st h
      rw [restoreLoop]
      by_cases hg : st.totalTokens + estimateTokens ("- " ++ m.content ++ "\n") +
          (if st.seen.contains (catOf m) then 0 else sectionHeaderTokens) > maxT
      · rw [if_pos hg]
        exact h
      · rw [if_neg hg]
        exact ih _ (RInv_step maxT st m h hg)

theorem RInv_init (maxT : Nat) : RInv maxT restoreInit := by
  refine ⟨by decide, Or.inl rfl, ?_⟩
  intro c hc
  simp [restoreInit] at hc

theorem restoreLoop_zero (l : List Row) : restoreLoop 0 restoreInit l = restoreInit := by
  cases l with
  | nil => rfl
  | cons m rest =>
      rw [restoreLoop]
      have h12 : restoreInit.totalTokens = 12 := rfl
      rw [if_pos (by omega)]

theorem len_header : restoreHeader.length = 42 := rfl

theorem header_mem_sectionParts (label l2 : String) (items : List Row)
    (h : ("### " ++ label) ∈ sectionParts l2 items) : l2 = label ∧ items ≠ [] := by
  unfold sectionParts at h
  split at h
  · exact absurd h (List.not_mem_nil _)
  · rename_i hne
    have hne' : items ≠ [] := by
      intro h0
      exact hne (by rw [h0]; rfl)
    rcases List.mem_cons.mp h with he | hmem
    · refine ⟨?_, hne'⟩
      have hd := congrArg String.data he
      simp only [String.data_append] at hd
      have := List.append_cancel_left hd
      exact String.ext this.symm
    · rcases List.mem_append.mp hmem with hl | hsp
      · exfalso
        obtain ⟨mm, _, hm⟩ := List.mem_map.mp hl
        have hd := congrArg String.data hm
        simp only [String.data_append] at hd
        have : '-' = '#' := by
          have h0 := congrArg (fun l => l.head?) hd
          simpa using h0
        exact absurd this (by decide)
      · exfalso
        simp only [List.mem_singleton] at hsp
        have hd := congrArg String.data hsp
        simp [String.data_append] at hd

theorem header_mem_sectionsOf_iff (g : Groups) (label : String) :
    ("### " ++ label) ∈ sectionsOf g ↔
      ∃ items, (label, items) ∈ categoryPairs g ∧ items ≠ [] := by
  constructor
  · intro h
    have h' : ∃ a bb, (a, bb) ∈ categoryPairs g ∧
        ("### " ++ label) ∈ sectionParts a bb := by
      simpa [sectionsOf, List.mem_flatMap] using h
    obtain ⟨a, bb, hp, hmem⟩ := h'
    obtain ⟨heq, hne⟩ := header_mem_sectionParts label a bb hmem
    refine ⟨bb, ?_, hne⟩
    rw [← heq]
    exact hp
  · rintro ⟨items, hp, hne⟩
    have hempf : items.isEmpty = false := by
      cases items with
      | nil => exact absurd rfl hne
      | cons a l => rfl
    simp only [sectionsOf]
    refine List.mem_flatMap.mpr ⟨(label, items), hp, ?_⟩
    simp [sectionParts, hempf]

/-- C2 counterexample: a single architecture memory with empty content and
budget 19 is admitted (the running count reaches exactly 19), yet the
emitted text estimates to **21** tokens — more than the budget plus the
last-admitted line's cost (19 + 1): the placeholder `### Category Label`
undercounts the real `### Architecture & Design` header. -/
theorem C2_budget_epsilon_counterexample :
    estimateTokens (restoreContext (fun _ => 0)
      (some [⟨1, "p", "s", "architecture", "", "", 0, "", "", 0, none, none⟩])
      (some 19)).text = 21 ∧
    (restoreContext (fun _ => 0)
      (some [⟨1, "p", "s", "architecture", "", "", 0, "", "", 0, none, none⟩])
      (some 19)).ids = [1] ∧
    estimateTokens ("- " ++ "" ++ "\n") = 1 ∧
    19 + 1 < 21 := by
  refine ⟨by decide, by decide, by decide, by decide⟩

/-- C2 amended: `restoreContext` stays within the budget up to **2** tokens
(the under-estimate of the `Architecture & Design` section header against
the fixed `### Category Label` placeholder) — not an ε attributable to the
last-admitted line; an explicit budget 0 restores nothing; null or empty
input yields the empty result; an absent budget uses the configured
`maxRestoreTokens` default; and a section header occurs in the assembled
sections exactly for categories with at least one admitted item. -/
theorem C2_restore_budget_and_shape (imp : Row → ℚ)
    (memories : Option (List Row)) (b : Option Nat) (ms : List Row)
    (g : Groups) (label : String) :
    estimateTokens (restoreContext imp memories b).text ≤
      b.getD defaultConfig.maxRestoreTokens + 2 ∧
    restoreContext imp memories (some 0) = ⟨"", []⟩ ∧
    (restoreContext imp none b = ⟨"", []⟩ ∧
     restoreContext imp (some []) b = ⟨"", []⟩) ∧
    restoreContext imp memories none =
      restoreContext imp memories (some defaultConfig.maxRestoreTokens) ∧
    (("### " ++ label) ∈ sectionsOf g ↔
      ∃ items, (label, items) ∈ categoryPairs g ∧ items ≠ []) ∧
    ((restoreContext imp (some ms) b).text = "" ∨
     (restoreContext imp (some ms) b).text =
       restoreHeader ++ joinNL (sectionsOf
         (restoreFinal imp ms (b.getD defaultConfig.maxRestoreTokens)).groups)) := by
  refine ⟨?_, ?_, ⟨rfl, rfl⟩, rfl, header_mem_sectionsOf_iff g label, ?_⟩
  · cases memories with
    | none => simp [restoreContext, estimateTokens]
    | some ms' =>
        by_cases hms : ms'.isEmpty
        · simp [restoreContext, hms, estimateTokens]
        · have hinv := restoreLoop_inv (b.getD defaultConfig.maxRestoreTokens)
            (sortByDesc imp ms') restoreInit
            (RInv_init (b.getD defaultConfig.maxRestoreTokens))
          simp only [restoreContext, hms, Bool.false_eq_true, if_false]
          by_cases hsec : (sectionsOf (restoreFinal imp ms'
              (b.getD defaultConfig.maxRestoreTokens)).groups).isEmpty
          · simp [hsec, estimateTokens]
          · simp only [hsec, Bool.false_eq_true, if_false]
            have hstfin : restoreFinal imp ms'
                (b.getD defaultConfig.maxRestoreTokens) =
                restoreLoop (b.getD defaultConfig.maxRestoreTokens) restoreInit
                  (sortByDesc imp ms') := rfl
            rw [hstfin] at hsec ⊢
            set st := restoreLoop (b.getD defaultConfig.maxRestoreTokens)
              restoreInit (sortByDesc imp ms') with hstdef
            have hsn : sectionsOf st.groups ≠ [] := by
              intro h0
              rw [h0] at hsec
              exact hsec rfl
            have hjoin := joinNL_length _ hsn
            have hgl := joinLen_sectionsOf st.groups
            have hlen : (restoreHeader ++ joinNL (sectionsOf st.groups)).length =
                42 + (joinNL (sectionsOf st.groups)).length := by
              rw [String.length_append, len_header]
            have hA := hinv.1
            have hTot : st.totalTokens ≤ b.getD defaultConfig.maxRestoreTokens := by
              rcases hinv.2 with hg0 | hle
              · exfalso
                apply hsn
                rw [hg0]
                rfl
              · exact hle
            have htne : (restoreHeader ++ joinNL (sectionsOf st.groups)) ≠ "" := by
              intro h0
              have := congrArg String.length h0
              rw [hlen] at this
              simp at this
            have hestim : estimateTokens
                (restoreHeader ++ joinNL (sectionsOf st.groups)) =
                (2 * (restoreHeader ++ joinNL (sectionsOf st.groups)).length + 6) / 7 := by
              rw [estimateTokens, isEmpty_false_of_ne _ htne]
              simp
            rw [hestim, hlen]
            omega
  · cases memories with
    | none => rfl
    | some ms' =>
        by_cases hms : ms'.isEmpty
        · simp [restoreContext, hms]
        · simp [restoreContext, hms, restoreFinal, restoreLoop_zero,
            (show sectionsOf restoreInit.groups = [] from rfl)]
  · by_cases hms : ms.isEmpty
    · simp [restoreContext, hms]
    · simp only [restoreContext, hms, Bool.false_eq_true, if_false]
      by_cases hsec : (sectionsOf (restoreFinal imp ms
          (b.getD defaultConfig.maxRestoreTokens)).groups).isEmpty
      · simp [hsec]
      · simp [hsec]

/-- C2 witness: the amended theorem applied at budget 0 and a concrete
memory. -/
theorem C2_restore_budget_and_shape_witness :
    restoreContext (fun _ => 0)
      (some [⟨1, "p", "s", "note", "c", "k", 0, "", "", 0, none, none⟩])
      (some 0) = ⟨"", []⟩ :=
  (C2_restore_budget_and_shape (fun _ => 0)
    (some [⟨1, "p", "s", "note", "c", "k", 0, "", "", 0, none, none⟩])
    (some 0) [] {} ("Notes")).2.1

end InfSpec
